import Mathlib

/-!
# Shenandoah evacuation, forwarding and cancellation

A shallow embedding of the inline evacuation, copy-buffer, pointer-update, region-lookup,
object-iteration and cancellation code of
`src/hotspot/share/gc/shenandoah/shenandoahHeap.inline.hpp`.

Conventions.

* Addresses are natural numbers counted in heap words; `0` is `NULL`.
* One call is modelled sequentially, as a function on an explicit state. A race on the
  forwarding slot shows up in the pre-state (the object is already forwarded when the
  compare-and-swap runs); interleavings of several calls are modelled by running the calls
  in the order of their compare-and-swap.
* Calls to collaborators whose code is not part of the embedded file are recorded, in order,
  in the calling thread's `trace`.
* Debug-only code (`assert`, the `#ifdef ASSERT` allocation-failure injection) is not part
  of the product build and is left out.
-/

namespace Shenandoah

/-! ## Data model -/

/-- Affiliation of a region that holds objects. The source enumeration also has `FREE`; a
free region holds no object, and the `default: ShouldNotReachHere()` arms of the switches on
the target generation are never taken, so the embedding keeps the two generations only. -/
inductive ShenandoahRegionAffiliation
  | YOUNG_GENERATION
  | OLD_GENERATION
deriving DecidableEq, Repr

open ShenandoahRegionAffiliation

/-- The fields of a heap region read by the evacuation code. -/
structure ShenandoahHeapRegion where
  affiliation : ShenandoahRegionAffiliation
  age : Nat
  humongous : Bool
deriving DecidableEq, Repr

/-- Modelled from the spec: `ShenandoahHeapRegion::is_young` (shenandoahHeapRegion.hpp is
not part of the embedded file); a region is young exactly when its affiliation is
`YOUNG_GENERATION`. -/
def ShenandoahHeapRegion.is_young (r : ShenandoahHeapRegion) : Bool :=
  decide (r.affiliation = YOUNG_GENERATION)

/-- Modelled from the spec: the identity state of an object header (`markWord`, not part of
the embedded file): the object's age and the remaining header bits. -/
structure markWord where
  age : Nat
  hash : Nat
deriving DecidableEq, Repr

/-- Modelled from the spec: `markWord::max_age`, the value at which the age saturates (the
age field has four bits). -/
def markWord.max_age : Nat := 15

/-- Modelled from the spec: `markWord::set_age`, which stores the low four bits of `v` in the
age field and keeps the other bits. -/
def markWord.set_age (w : markWord) (v : Nat) : markWord :=
  { w with age := v % (markWord.max_age + 1) }

/-- Modelled from the spec: a heap word, read as an object header. It is either in the
identity state (age and hash in place) or in a displaced lock state, where the real header
lives in the lock record or monitor `lr` (`markWord::has_displaced_mark_helper` holds of
exactly these words). The forwarding state of an object is kept in the
separate forwarding slot `State.fwd`. -/
inductive HeapWord
  | neutral (w : markWord)
  | displaced (lr : Nat)
deriving DecidableEq, Repr

/-- Calls to collaborators and memory operations, in the order the thread performs them. -/
inductive Event
  | allocate_from_gclab_slow (size : Nat)
  | allocate_from_plab_slow (size : Nat) (is_promotion : Bool)
  | allocate_memory (size : Nat) (target_gen : ShenandoahRegionAffiliation) (is_promotion : Bool)
  | handle_promotion_failure
  | handle_old_evacuation_failure
  | handle_alloc_failure_evac (size : Nat)
  | handle_out_of_memory_during_evacuation
  | aligned_disjoint_words (src dst size : Nat)
  | try_update_forwardee (p update : Nat)
  | handle_old_evacuation (copy size : Nat) (from_young : Bool)
  | fill_with_object (copy size : Nat)
deriving DecidableEq, Repr

/-- Modelled from the spec: a copy buffer (`PLAB`, gc/shared/plab.hpp is not part of the
embedded file), a bump-pointer arena with allocation pointer `top` and limit `end_`. -/
structure PLAB where
  top : Nat
  end_ : Nat
deriving DecidableEq, Repr

/-- Modelled from the spec: `PLAB::allocate`, the bump allocation. It returns the old
allocation pointer and advances it by `word_sz` when that many words are left, `NULL`
otherwise. -/
def PLAB.allocate (lab : PLAB) (word_sz : Nat) : Nat × PLAB :=
  if word_sz ≤ lab.end_ - lab.top then (lab.top, { lab with top := lab.top + word_sz })
  else (0, lab)

/-- Modelled from the spec: `PLAB::undo_allocation`, which undoes the last bump allocation:
the allocation pointer rewinds by `word_sz` words. -/
def PLAB.undo_allocation (lab : PLAB) (_obj word_sz : Nat) : PLAB :=
  { lab with top := lab.top - word_sz }

/-- The per-thread data (`ShenandoahThreadLocalData`) read and written by the evacuation
code, and the thread's trace of collaborator calls. -/
structure Thread where
  oom_during_evac : Bool
  gclab : Option PLAB
  gclab_size : Nat
  plab : Option PLAB
  plab_size : Nat
  allow_plab_promotions : Bool
  plab_promoted : Nat
  plab_evacuated : Nat
  trace : List Event
deriving DecidableEq, Repr

/-- Flags, per-cycle heap settings and the runtime's object model, all fixed during a call. -/
structure VM where
  UseTLAB : Bool
  ShenandoahUsePLAB : Bool
  ShenandoahPromoteTenuredObjects : Bool
  ShenandoahSuspendibleWorkers : Bool
  InitialTenuringThreshold : Nat
  HeapWordSize : Nat
  PLAB_min_size : Nat
  is_generational : Bool
  is_gc_generation_young : Bool
  is_aging_cycle : Bool
  size : Nat → Nat
  heap_region_containing : Nat → ShenandoahHeapRegion

/-- Outcome of a buffer slow path: the address it returns (`0` for `NULL`), the thread's
buffer afterwards and the desired buffer size it recorded. -/
structure SlowResult where
  obj : Nat
  lab : PLAB
  desired : Nat
deriving DecidableEq, Repr

/-- The allocators behind the inline code (shenandoahHeap.cpp is not part of the embedded
file), taken as parameters: the two buffer slow paths, which may retire and replace the
thread's buffer, and the shared allocator `allocate_memory`. -/
structure Allocators where
  allocate_from_gclab_slow : Thread → Nat → SlowResult
  allocate_from_plab_slow : Thread → Nat → Bool → SlowResult
  allocate_memory : Nat → ShenandoahRegionAffiliation → Bool → Nat

/-- The heap as one call sees it: the heap words, the displaced headers held in lock records,
the forwarding slot of every object, and the calling thread. -/
structure State where
  mem : Nat → HeapWord
  lockrec : Nat → markWord
  fwd : Nat → Nat
  thread : Thread

/-- Append an event to the thread's trace. -/
def Thread.log (t : Thread) (e : Event) : Thread :=
  { t with trace := t.trace ++ [e] }

/-- Append an event to the calling thread's trace. -/
def State.log (s : State) (e : Event) : State :=
  { s with thread := s.thread.log e }

/-! ## Forwarding protocol -/

/-- Modelled from the spec: the forwarding slot of `p` holds `p` itself while the object is
not forwarded (what `p->mark().is_marked()` tests in `evacuate_object`). -/
def is_forwarded (s : State) (p : Nat) : Bool :=
  decide (s.fwd p ≠ p)

/-- Modelled from the spec: `ShenandoahBarrierSet::resolve_forwarded`; `NULL` resolves to
`NULL`, an object to the content of its forwarding slot. -/
def resolve_forwarded (s : State) (p : Nat) : Nat :=
  if p = 0 then 0 else s.fwd p

/-- Modelled from the spec: `ShenandoahForwarding::try_update_forwardee`, a single
compare-and-swap on the forwarding slot of `p`, compared against the object's own address
and set to the candidate; it returns the forwarding target that is installed afterwards. -/
def try_update_forwardee (p update : Nat) (s : State) : Nat × State :=
  if s.fwd p = p then
    (update, { s.log (Event.try_update_forwardee p update) with
                 fwd := fun a => if a = p then update else s.fwd a })
  else
    (s.fwd p, s.log (Event.try_update_forwardee p update))

/-! ## Copy-buffer allocators -/

/-- Modelled from the spec: `allocate_from_gclab_slow`; the outcome is the environment's, the
call is recorded. -/
def allocate_from_gclab_slow (E : Allocators) (size : Nat) (t : Thread) : Nat × Thread :=
  ((E.allocate_from_gclab_slow t size).obj,
   { t.log (Event.allocate_from_gclab_slow size) with
       gclab := some (E.allocate_from_gclab_slow t size).lab,
       gclab_size := (E.allocate_from_gclab_slow t size).desired })

/-- Modelled from the spec: `allocate_from_plab_slow`; the outcome is the environment's, the
call is recorded. -/
def allocate_from_plab_slow (E : Allocators) (size : Nat) (is_promotion : Bool) (t : Thread) :
    Nat × Thread :=
  ((E.allocate_from_plab_slow t size is_promotion).obj,
   { t.log (Event.allocate_from_plab_slow size is_promotion) with
       plab := some (E.allocate_from_plab_slow t size is_promotion).lab,
       plab_size := (E.allocate_from_plab_slow t size is_promotion).desired })

/-- The source's `ShenandoahHeap::allocate_from_gclab`. -/
def allocate_from_gclab (E : Allocators) (size : Nat) (t : Thread) : Nat × Thread :=
  match t.gclab with
  | none => (0, t)
  | some gclab =>
    if (gclab.allocate size).1 ≠ 0 then
      ((gclab.allocate size).1, { t with gclab := some (gclab.allocate size).2 })
    else
      allocate_from_gclab_slow E size { t with gclab := some (gclab.allocate size).2 }

/-- Modelled from the spec: `ShenandoahThreadLocalData::add_to_plab_promoted`. -/
def add_to_plab_promoted (t : Thread) (increment : Nat) : Thread :=
  { t with plab_promoted := t.plab_promoted + increment }

/-- Modelled from the spec: `ShenandoahThreadLocalData::add_to_plab_evacuated`. -/
def add_to_plab_evacuated (t : Thread) (increment : Nat) : Thread :=
  { t with plab_evacuated := t.plab_evacuated + increment }

/-- Modelled from the spec: `ShenandoahThreadLocalData::subtract_from_plab_promoted`. -/
def subtract_from_plab_promoted (t : Thread) (increment : Nat) : Thread :=
  { t with plab_promoted := t.plab_promoted - increment }

/-- Modelled from the spec: `ShenandoahThreadLocalData::subtract_from_plab_evacuated`. -/
def subtract_from_plab_evacuated (t : Thread) (increment : Nat) : Thread :=
  { t with plab_evacuated := t.plab_evacuated - increment }

/-- The source's `ShenandoahHeap::allocate_from_plab`. -/
def allocate_from_plab (F : VM) (E : Allocators) (size : Nat) (is_promotion : Bool)
    (t : Thread) : Nat × Thread :=
  if is_promotion && !t.allow_plab_promotions then (0, t)
  else
    match t.plab with
    | none => (0, t)
    | some plab =>
      let r : Nat × Thread :=
        if (plab.allocate size).1 = 0 then
          allocate_from_plab_slow E size is_promotion
            { t with plab := some (plab.allocate size).2 }
        else ((plab.allocate size).1, { t with plab := some (plab.allocate size).2 })
      if is_promotion then (r.1, add_to_plab_promoted r.2 (size * F.HeapWordSize))
      else (r.1, add_to_plab_evacuated r.2 (size * F.HeapWordSize))

/-! ## Evacuation -/

/-- Modelled from the spec: `ShenandoahThreadLocalData::set_gclab_size`. -/
def set_gclab_size (t : Thread) (v : Nat) : Thread :=
  { t with gclab_size := v }

/-- Modelled from the spec: `ShenandoahThreadLocalData::set_plab_size`. -/
def set_plab_size (t : Thread) (v : Nat) : Thread :=
  { t with plab_size := v }

/-- What the allocation part of `try_evacuate_object` hands to the rest of the function. -/
structure Allocation where
  copy : Nat
  alloc_from_lab : Bool
  thread : Thread
deriving DecidableEq, Repr

/-- The allocation part of the source's `try_evacuate_object` (lines 282 to 334: the
`UseTLAB` switch on the target generation with its retry, then the shared allocation). -/
def evac_allocate (F : VM) (E : Allocators) (size : Nat) (is_promotion : Bool)
    (target_gen : ShenandoahRegionAffiliation) (t : Thread) : Allocation :=
  let lab : Nat × Thread :=
    if F.UseTLAB then
      match target_gen with
      | YOUNG_GENERATION =>
        if (allocate_from_gclab E size t).1 = 0
            ∧ size < (allocate_from_gclab E size t).2.gclab_size then
          allocate_from_gclab E size
            (set_gclab_size (allocate_from_gclab E size t).2 F.PLAB_min_size)
        else allocate_from_gclab E size t
      | OLD_GENERATION =>
        if F.ShenandoahUsePLAB then
          if (allocate_from_plab F E size is_promotion t).1 = 0
              ∧ size < (allocate_from_plab F E size is_promotion t).2.plab_size then
            allocate_from_plab F E size is_promotion
              (set_plab_size (allocate_from_plab F E size is_promotion t).2 F.PLAB_min_size)
          else allocate_from_plab F E size is_promotion t
        else (0, t)
    else (0, t)
  if lab.1 = 0 then
    { copy := E.allocate_memory size target_gen is_promotion,
      alloc_from_lab := false,
      thread := lab.2.log (Event.allocate_memory size target_gen is_promotion) }
  else
    { copy := lab.1, alloc_from_lab := true, thread := lab.2 }

/-- Modelled from the spec: the out-of-memory-during-evacuation handler, which marks the
calling thread so that its later evacuation calls are forwarding lookups only. -/
def handle_out_of_memory_during_evacuation (s : State) : State :=
  { s with thread :=
      { s.thread.log Event.handle_out_of_memory_during_evacuation with
          oom_during_evac := true } }

/-- The allocation-failure part of the source's `try_evacuate_object` (lines 336 to 355,
`copy == NULL`). -/
def evac_alloc_failure (p : Nat) (from_region : ShenandoahHeapRegion)
    (target_gen : ShenandoahRegionAffiliation) (size : Nat) (s : State) : Nat × State :=
  if target_gen = OLD_GENERATION ∧ from_region.is_young = true then
    (0, s.log Event.handle_promotion_failure)
  else
    let s1 : State :=
      if target_gen = OLD_GENERATION then s.log Event.handle_old_evacuation_failure else s
    let s2 : State := s1.log (Event.handle_alloc_failure_evac size)
    let s3 : State := handle_out_of_memory_during_evacuation s2
    (resolve_forwarded s3 p, s3)

/-- Modelled from the spec: `Copy::aligned_disjoint_words`, the word-for-word copy of `count`
words from `src` to `dst`. -/
def aligned_disjoint_words (src dst count : Nat) (s : State) : State :=
  { s.log (Event.aligned_disjoint_words src dst count) with
      mem := fun a => if dst ≤ a ∧ a < dst + count then s.mem (src + (a - dst)) else s.mem a }

/-- The source's `ShenandoahHeap::increase_object_age`; the additions are on `uint`. -/
def increase_object_age (obj additional_age : Nat) (s : State) : State :=
  match s.mem obj with
  | HeapWord.displaced lr =>
    let w : markWord := s.lockrec lr
    let w1 : markWord := w.set_age (min markWord.max_age ((w.age + additional_age) % 2 ^ 32))
    { s with lockrec := fun a => if a = lr then w1 else s.lockrec a }
  | HeapWord.neutral w =>
    let w1 : markWord := w.set_age (min markWord.max_age ((w.age + additional_age) % 2 ^ 32))
    { s with mem := fun a => if a = obj then HeapWord.neutral w1 else s.mem a }

/-- The part of the source's `try_evacuate_object` that follows a successful allocation
(lines 357 to 418): copy, forwarding compare-and-swap, and the bookkeeping of the winner or
of the loser. -/
def evac_install (F : VM) (p : Nat) (from_region : ShenandoahHeapRegion)
    (target_gen : ShenandoahRegionAffiliation) (size : Nat) (is_promotion : Bool)
    (copy : Nat) (alloc_from_lab : Bool) (s : State) : Nat × State :=
  let r : Nat × State := try_update_forwardee p copy (aligned_disjoint_words p copy size s)
  if r.1 = copy then
    if F.is_generational then
      match target_gen with
      | OLD_GENERATION =>
        (copy, r.2.log (Event.handle_old_evacuation copy size from_region.is_young))
      | YOUNG_GENERATION =>
        if F.is_aging_cycle then
          (copy, increase_object_age copy ((from_region.age + 1) % 2 ^ 32) r.2)
        else (copy, r.2)
    else (copy, r.2)
  else
    if alloc_from_lab then
      match target_gen with
      | YOUNG_GENERATION =>
        (r.1, { r.2 with thread :=
                  { r.2.thread with
                      gclab := r.2.thread.gclab.map (fun lab => lab.undo_allocation copy size) } })
      | OLD_GENERATION =>
        let t : Thread :=
          { r.2.thread with
              plab := r.2.thread.plab.map (fun lab => lab.undo_allocation copy size) }
        if is_promotion then
          (r.1, { r.2 with thread := subtract_from_plab_promoted t (size * F.HeapWordSize) })
        else
          (r.1, { r.2 with thread := subtract_from_plab_evacuated t (size * F.HeapWordSize) })
    else
      (r.1, r.2.log (Event.fill_with_object copy size))

/-- The source's `ShenandoahHeap::try_evacuate_object` (lines 280 to 419), as the sequence of
its three parts. -/
def try_evacuate_object (F : VM) (E : Allocators) (p : Nat) (from_region : ShenandoahHeapRegion)
    (target_gen : ShenandoahRegionAffiliation) (s : State) : Nat × State :=
  let size : Nat := F.size p
  let is_promotion : Bool := decide (target_gen = OLD_GENERATION) && from_region.is_young
  let a : Allocation := evac_allocate F E size is_promotion target_gen s.thread
  if a.copy = 0 then
    evac_alloc_failure p from_region target_gen size { s with thread := a.thread }
  else
    evac_install F p from_region target_gen size is_promotion a.copy a.alloc_from_lab
      { s with thread := a.thread }

/-- The source's `ShenandoahHeap::evacuate_object`. -/
def evacuate_object (F : VM) (E : Allocators) (p : Nat) (s : State) : Nat × State :=
  if s.thread.oom_during_evac then (resolve_forwarded s p, s)
  else
    let r : ShenandoahHeapRegion := F.heap_region_containing p
    let target_gen : ShenandoahRegionAffiliation := r.affiliation
    if F.is_generational && F.is_gc_generation_young
        && decide (target_gen = YOUNG_GENERATION) && F.ShenandoahPromoteTenuredObjects then
      if is_forwarded s p then (resolve_forwarded s p, s)
      else
        match s.mem p with
        | HeapWord.displaced _ => try_evacuate_object F E p r target_gen s
        | HeapWord.neutral mark =>
          if F.InitialTenuringThreshold ≤ (r.age + mark.age) % 2 ^ 32 then
            if (try_evacuate_object F E p r OLD_GENERATION s).1 ≠ 0 then
              try_evacuate_object F E p r OLD_GENERATION s
            else
              try_evacuate_object F E p r target_gen
                (try_evacuate_object F E p r OLD_GENERATION s).2
          else try_evacuate_object F E p r target_gen s
    else try_evacuate_object F E p r target_gen s

/-! ## Cancellation -/

/-- The three values of the heap's cancellation flag. -/
inductive CancelState
  | CANCELLABLE
  | CANCELLED
  | NOT_CANCELLED
deriving DecidableEq, Repr

open CancelState

/-- Stores to the cancellation flag and calls to collaborators made by the cancellation
code, in order. -/
inductive CancelEvent
  | store (v : CancelState)
  | yield
  | log_cancel_time
  | oom_evac_handler_clear
deriving DecidableEq, Repr

/-- The heap fields used by the cancellation code, and the trace of its stores and calls.
The cancellation time stamp is kept as a number; only its comparison with zero is used. -/
structure CancelHeap where
  cancelled_gc_flag : CancelState
  cancel_requested_time : Nat
  trace : List CancelEvent
deriving DecidableEq, Repr

/-- The source's `ShenandoahHeap::cancelled_gc`. -/
def cancelled_gc (h : CancelHeap) : Bool :=
  decide (h.cancelled_gc_flag = CANCELLED)

/-- Modelled from the spec: `ShenandoahSharedEnumFlag::set`, a store to the flag. -/
def CancelHeap.set (h : CancelHeap) (v : CancelState) : CancelHeap :=
  { h with cancelled_gc_flag := v, trace := h.trace ++ [CancelEvent.store v] }

/-- Modelled from the spec: `ShenandoahSharedEnumFlag::cmpxchg`, the compare-and-swap that
stores `new_value` when the flag holds `expected` and returns the value it found. -/
def CancelHeap.cmpxchg (h : CancelHeap) (new_value expected : CancelState) :
    CancelState × CancelHeap :=
  (h.cancelled_gc_flag, if h.cancelled_gc_flag = expected then h.set new_value else h)

/-- Modelled from the spec: `SuspendibleThreadSet::yield`, the cooperative suspension point;
it does not touch the flag. -/
def CancelHeap.yield (h : CancelHeap) : CancelHeap :=
  { h with trace := h.trace ++ [CancelEvent.yield] }

/-- The source's `ShenandoahHeap::check_cancelled_gc_and_yield`, run without interference;
`should_yield` is the answer of `SuspendibleThreadSet::should_yield`. -/
def check_cancelled_gc_and_yield (F : VM) (sts_active should_yield : Bool) (h : CancelHeap) :
    Bool × CancelHeap :=
  if !(sts_active && F.ShenandoahSuspendibleWorkers) then (cancelled_gc h, h)
  else
    let r : CancelState × CancelHeap := h.cmpxchg NOT_CANCELLED CANCELLABLE
    if r.1 = CANCELLABLE ∨ r.1 = NOT_CANCELLED then
      let h1 : CancelHeap := if should_yield then r.2.yield else r.2
      let h2 : CancelHeap := if r.1 = CANCELLABLE then h1.set CANCELLABLE else h1
      (false, h2)
    else (true, r.2)

/-- The source's `ShenandoahHeap::clear_cancelled_gc`. -/
def clear_cancelled_gc (clear_oom_handler : Bool) (h : CancelHeap) : CancelHeap :=
  let h1 : CancelHeap := h.set CANCELLABLE
  let h2 : CancelHeap :=
    if 0 < h1.cancel_requested_time then
      { h1 with cancel_requested_time := 0,
                trace := h1.trace ++ [CancelEvent.log_cancel_time] }
    else h1
  if clear_oom_handler then
    { h2 with trace := h2.trace ++ [CancelEvent.oom_evac_handler_clear] }
  else h2

/-- Modelled from the spec: an external cancellation request (the requesting code is not
part of the embedded file); any thread may force `CANCELLED` from any state at any time. -/
def cancel_gc (h : CancelHeap) : CancelHeap :=
  h.set CANCELLED

/-- Where a worker stands inside `check_cancelled_gc_and_yield`: outside the call, after its
compare-and-swap (which returned `prev`), or after the optional yield. -/
inductive WorkerPc
  | idle
  | claimed (prev : CancelState)
  | yielded (prev : CancelState)
deriving DecidableEq, Repr

/-- The flag together with the position of every worker. -/
structure Config where
  heap : CancelHeap
  pc : Nat → WorkerPc

/-- The atomic steps of the cancellation protocol. -/
inductive Step
  | cancel
  | clear (clear_oom_handler : Bool)
  | worker (i : Nat) (sts_active should_yield : Bool)
deriving DecidableEq, Repr

/-- Whether a step is a `clear_cancelled_gc` step. -/
def Step.is_clear : Step → Bool
  | Step.clear _ => true
  | _ => false

/-- One atomic step of worker `i` inside `check_cancelled_gc_and_yield`: the flag test or the
compare-and-swap when it enters the call, then the optional yield, then the restoring store
made by the worker whose compare-and-swap saw `CANCELLABLE`. -/
def worker_step (F : VM) (i : Nat) (sts_active should_yield : Bool) (c : Config) : Config :=
  match c.pc i with
  | WorkerPc.idle =>
    if !(sts_active && F.ShenandoahSuspendibleWorkers) then c
    else
      let r : CancelState × CancelHeap := c.heap.cmpxchg NOT_CANCELLED CANCELLABLE
      if r.1 = CANCELLABLE ∨ r.1 = NOT_CANCELLED then
        { heap := r.2, pc := fun j => if j = i then WorkerPc.claimed r.1 else c.pc j }
      else { c with heap := r.2 }
  | WorkerPc.claimed prev =>
    { heap := if should_yield then c.heap.yield else c.heap,
      pc := fun j => if j = i then WorkerPc.yielded prev else c.pc j }
  | WorkerPc.yielded prev =>
    { heap := if prev = CANCELLABLE then c.heap.set CANCELLABLE else c.heap,
      pc := fun j => if j = i then WorkerPc.idle else c.pc j }

/-- One step of the protocol. -/
def step (F : VM) (c : Config) : Step → Config
  | Step.cancel => { c with heap := cancel_gc c.heap }
  | Step.clear b => { c with heap := clear_cancelled_gc b c.heap }
  | Step.worker i sts_active should_yield => worker_step F i sts_active should_yield c

/-- A run of the protocol: the steps taken in order. -/
def run (F : VM) (steps : List Step) (c : Config) : Config :=
  steps.foldl (step F) c

/-- A worker has a pending restore when its compare-and-swap saw `CANCELLABLE` and it has not
yet stored `CANCELLABLE` back. -/
def pending_restore : WorkerPc → Bool
  | WorkerPc.claimed CancelState.CANCELLABLE => true
  | WorkerPc.yielded CancelState.CANCELLABLE => true
  | _ => false

/-! ## Several threads evacuating one object -/

/-- One of several threads that evacuate the same object: the thread's data and the
allocators it meets. -/
structure Caller where
  thread : Thread
  allocators : Allocators

/-- The copy that the allocation part of `try_evacuate_object` hands to this caller. -/
def Caller.copy (F : VM) (p : Nat) (r : ShenandoahHeapRegion)
    (g : ShenandoahRegionAffiliation) (c : Caller) : Nat :=
  (evac_allocate F c.allocators (F.size p) (decide (g = OLD_GENERATION) && r.is_young) g
    c.thread).copy

/-- The calls of several threads on the same object and the same heap, taken in the order
in which their forwarding compare-and-swap runs. The result lists the returned addresses in
that order. -/
def run_calls (F : VM) (p : Nat) (r : ShenandoahHeapRegion) (g : ShenandoahRegionAffiliation) :
    List Caller → State → List Nat × State
  | [], s => ([], s)
  | c :: cs, s =>
    ((try_evacuate_object F c.allocators p r g { s with thread := c.thread }).1
        :: (run_calls F p r g cs
              (try_evacuate_object F c.allocators p r g { s with thread := c.thread }).2).1,
      (run_calls F p r g cs
        (try_evacuate_object F c.allocators p r g { s with thread := c.thread }).2).2)

/-- The calling thread's buffer for a target generation: the GCLAB for the young generation,
the PLAB for the old generation. -/
def local_buffer (g : ShenandoahRegionAffiliation) (t : Thread) : Option PLAB :=
  match g with
  | YOUNG_GENERATION => t.gclab
  | OLD_GENERATION => t.plab

/-- Whether an event is a call to an allocator. -/
def Event.is_allocation : Event → Bool
  | Event.allocate_from_gclab_slow _ => true
  | Event.allocate_from_plab_slow _ _ => true
  | Event.allocate_memory _ _ _ => true
  | _ => false

/-- Whether an event is the object copy or the forwarding compare-and-swap. -/
def Event.is_copy_or_cas : Event → Bool
  | Event.aligned_disjoint_words _ _ _ => true
  | Event.try_update_forwardee _ _ => true
  | _ => false

/-! ## Concrete inputs -/

/-- A young region of age 0. -/
def young_region : ShenandoahHeapRegion :=
  { affiliation := YOUNG_GENERATION, age := 0, humongous := false }

/-- An old region of age 0. -/
def old_region : ShenandoahHeapRegion :=
  { affiliation := OLD_GENERATION, age := 0, humongous := false }

/-- A generational heap in a young collection that is an aging cycle; every object has 16
words and lies in `young_region`; a heap word has 8 bytes and the least buffer has 32 words. -/
def generational_vm : VM :=
  { UseTLAB := true, ShenandoahUsePLAB := true, ShenandoahPromoteTenuredObjects := true,
    ShenandoahSuspendibleWorkers := true, InitialTenuringThreshold := 7, HeapWordSize := 8,
    PLAB_min_size := 32, is_generational := true, is_gc_generation_young := true,
    is_aging_cycle := true, size := fun _ => 16, heap_region_containing := fun _ => young_region }

/-- The heap `generational_vm` in a cycle that is not an aging cycle. -/
def generational_vm_no_aging : VM :=
  { generational_vm with is_aging_cycle := false }

/-- Allocators that are exhausted: each slow path leaves the buffer and the desired size as
they are and returns `NULL`, and so does the shared allocator. -/
def exhausted : Allocators :=
  { allocate_from_gclab_slow := fun t _ =>
      { obj := 0, lab := t.gclab.getD { top := 0, end_ := 0 }, desired := t.gclab_size },
    allocate_from_plab_slow := fun t _ _ =>
      { obj := 0, lab := t.plab.getD { top := 0, end_ := 0 }, desired := t.plab_size },
    allocate_memory := fun _ _ _ => 0 }

/-- Allocators whose slow paths replace the thread's buffer: when the desired buffer size is
at most `avail` words and the object fits, the buffer is retired, a fresh one of the desired
size starting at `base` takes its place and the object is bump-allocated from it; otherwise
the slow path returns `NULL` and changes nothing. The shared allocator is exhausted. -/
def refilling (base avail : Nat) : Allocators :=
  { allocate_from_gclab_slow := fun t size =>
      if t.gclab_size ≤ avail ∧ size ≤ t.gclab_size then
        { obj := base, lab := { top := base + size, end_ := base + t.gclab_size },
          desired := t.gclab_size }
      else { obj := 0, lab := t.gclab.getD { top := 0, end_ := 0 }, desired := t.gclab_size },
    allocate_from_plab_slow := fun t size _ =>
      if t.plab_size ≤ avail ∧ size ≤ t.plab_size then
        { obj := base, lab := { top := base + size, end_ := base + t.plab_size },
          desired := t.plab_size }
      else { obj := 0, lab := t.plab.getD { top := 0, end_ := 0 }, desired := t.plab_size },
    allocate_memory := fun _ _ _ => 0 }

/-- A worker whose GCLAB is the 64-word buffer at 200 and whose PLAB is the 64-word buffer at
400, both empty, with a desired buffer size of 1024 words and promotions allowed. -/
def worker : Thread :=
  { oom_during_evac := false, gclab := some { top := 200, end_ := 264 }, gclab_size := 1024,
    plab := some { top := 400, end_ := 464 }, plab_size := 1024, allow_plab_promotions := true,
    plab_promoted := 0, plab_evacuated := 0, trace := [] }

/-- A worker as `worker`, with only 8 words left in each buffer. -/
def worker_low : Thread :=
  { worker with gclab := some { top := 256, end_ := 264 },
                plab := some { top := 456, end_ := 464 } }

/-- A worker as `worker`, whose buffers start at `base` and `base + 200`. -/
def worker_at (base : Nat) : Thread :=
  { worker with gclab := some { top := base, end_ := base + 64 },
                plab := some { top := base + 200, end_ := base + 264 } }

/-- A worker without buffers. -/
def worker_bare : Thread :=
  { worker with gclab := none, plab := none }

/-- A heap in which no object is forwarded; every word is an identity-state header of age 1. -/
def heap_unforwarded (t : Thread) : State :=
  { mem := fun _ => HeapWord.neutral { age := 1, hash := 0 },
    lockrec := fun _ => { age := 0, hash := 0 },
    fwd := fun a => a,
    thread := t }

/-- The heap `heap_unforwarded` after another thread has installed its copy at 900 as the
forwarding target of the object at 100. -/
def heap_forwarded (t : Thread) : State :=
  { heap_unforwarded t with fwd := fun a => if a = 100 then 900 else a }

/-- The idle cancellation state: the flag is `CANCELLABLE`, no cancellation is pending. -/
def cancel_idle : CancelHeap :=
  { cancelled_gc_flag := CANCELLABLE, cancel_requested_time := 0, trace := [] }

/-- A cancelled heap: the flag is `CANCELLED`. -/
def cancel_requested : CancelHeap :=
  { cancelled_gc_flag := CANCELLED, cancel_requested_time := 1, trace := [] }

/-- The protocol at rest: the flag is `CANCELLABLE` and every worker is outside the check. -/
def config_idle : Config :=
  { heap := cancel_idle, pc := fun _ => WorkerPc.idle }

/-- The protocol after a cancellation that met no worker inside the check. -/
def config_cancelled : Config :=
  { heap := cancel_requested, pc := fun _ => WorkerPc.idle }

/-! ## Pointer update pass -/

/-- The template parameter `T` of the update functions: a full-width or a compressed
reference slot. -/
inductive SlotType
  | oop
  | narrowOop
deriving DecidableEq, Repr

/-- The compressed-reference encoding (`CompressedOops`, not part of the embedded file),
taken as a parameter. -/
structure CompressedOops where
  encode : Nat → Nat
  encode_not_null : Nat → Nat
  decode : Nat → Nat
  decode_not_null : Nat → Nat

/-- Writes and compare-and-swaps that an update pass performs on reference slots. -/
inductive RefEvent
  | oop_store (p v : Nat)
  | cmpxchg (addr compare exchange : Nat)
deriving DecidableEq, Repr

/-- The heap as an update pass sees it: the raw content of every reference slot, the
forwarding slot of every object, and the trace of the pass's own writes. -/
structure RefHeap where
  slot : Nat → Nat
  fwd : Nat → Nat
  trace : List RefEvent

/-- What the update functions take from their surroundings: the reference encoding and the
collection-set membership test (`ShenandoahCollectionSet::is_in`, not part of the embedded
file). -/
structure RefEnv where
  oops : CompressedOops
  in_collection_set : Nat → Bool

/-- Modelled from the spec: `CompressedOops::decode_not_null` at slot type `T`; the identity
on full-width references. -/
def SlotType.decode_not_null (T : SlotType) (C : CompressedOops) (o : Nat) : Nat :=
  match T with
  | SlotType.oop => o
  | SlotType.narrowOop => C.decode_not_null o

/-- Modelled from the spec: `RawAccess<IS_NOT_NULL>::oop_store` at slot type `T`, which
stores the reference, encoded when the slot is compressed. -/
def oop_store (T : SlotType) (C : CompressedOops) (p v : Nat) (h : RefHeap) : RefHeap :=
  match T with
  | SlotType.oop =>
    { h with slot := fun a => if a = p then v else h.slot a,
             trace := h.trace ++ [RefEvent.oop_store p v] }
  | SlotType.narrowOop =>
    { h with slot := fun a => if a = p then C.encode_not_null v else h.slot a,
             trace := h.trace ++ [RefEvent.oop_store p (C.encode_not_null v)] }

/-- Modelled from the spec: `ShenandoahBarrierSet::resolve_forwarded_not_null`, the content
of the object's forwarding slot. -/
def resolve_forwarded_not_null (h : RefHeap) (obj : Nat) : Nat :=
  h.fwd obj

/-- The source's `ShenandoahHeap::update_with_forwarded`. -/
def update_with_forwarded (T : SlotType) (V : RefEnv) (p : Nat) (h : RefHeap) : RefHeap :=
  if h.slot p ≠ 0 then
    if V.in_collection_set (T.decode_not_null V.oops (h.slot p)) then
      oop_store T V.oops p
        (resolve_forwarded_not_null h (T.decode_not_null V.oops (h.slot p))) h
    else h
  else h

/-- Modelled from the spec: `Atomic::cmpxchg` on a reference slot; it stores `exchange` when
the slot holds `compare` and returns the value it found. -/
def cmpxchg (addr compare exchange : Nat) (h : RefHeap) : Nat × RefHeap :=
  (h.slot addr,
   { h with slot := fun a =>
              if a = addr ∧ h.slot addr = compare then exchange else h.slot a,
            trace := h.trace ++ [RefEvent.cmpxchg addr compare exchange] })

/-- The source's `ShenandoahHeap::cas_oop(oop n, oop* addr, oop c)`. -/
def cas_oop (n addr c : Nat) (h : RefHeap) : Nat × RefHeap :=
  cmpxchg addr c n h

/-- The source's `ShenandoahHeap::cas_oop(oop n, narrowOop* addr, narrowOop c)`. -/
def cas_oop_narrow_compare (C : CompressedOops) (n addr c : Nat) (h : RefHeap) :
    Nat × RefHeap :=
  (C.decode (cmpxchg addr c (C.encode n) h).1, (cmpxchg addr c (C.encode n) h).2)

/-- The source's `ShenandoahHeap::cas_oop(oop n, narrowOop* addr, oop c)`. -/
def cas_oop_narrow (C : CompressedOops) (n addr c : Nat) (h : RefHeap) : Nat × RefHeap :=
  (C.decode (cmpxchg addr (C.encode c) (C.encode n) h).1,
   (cmpxchg addr (C.encode c) (C.encode n) h).2)

/-- A write that another thread makes to slot `p`, if it makes one. -/
def other_write (p : Nat) (other : Option Nat) (h : RefHeap) : RefHeap :=
  match other with
  | none => h
  | some v => { h with slot := fun a => if a = p then v else h.slot a }

/-- The source's `ShenandoahHeap::conc_update_with_forwarded`; `other` is the write, if any,
that another thread makes to the slot after this pass has loaded it and before its
compare-and-swap. -/
def conc_update_with_forwarded (T : SlotType) (V : RefEnv) (p : Nat) (other : Option Nat)
    (h : RefHeap) : RefHeap :=
  if h.slot p ≠ 0 then
    if V.in_collection_set (T.decode_not_null V.oops (h.slot p)) then
      match T with
      | SlotType.oop =>
        (cas_oop (resolve_forwarded_not_null h (T.decode_not_null V.oops (h.slot p))) p
          (T.decode_not_null V.oops (h.slot p)) (other_write p other h)).2
      | SlotType.narrowOop =>
        (cas_oop_narrow V.oops
          (resolve_forwarded_not_null h (T.decode_not_null V.oops (h.slot p))) p
          (T.decode_not_null V.oops (h.slot p)) (other_write p other h)).2
    else other_write p other h
  else other_write p other h

/-- The raw value that a slot of type `T` holds for the reference `v` after the concurrent
update: the address itself, or its `CompressedOops::encode`. -/
def SlotType.encode (T : SlotType) (C : CompressedOops) (v : Nat) : Nat :=
  match T with
  | SlotType.oop => v
  | SlotType.narrowOop => C.encode v

/-- The raw value that `oop_store` puts into a slot of type `T` for the reference `v`. -/
def SlotType.encode_not_null (T : SlotType) (C : CompressedOops) (v : Nat) : Nat :=
  match T with
  | SlotType.oop => v
  | SlotType.narrowOop => C.encode_not_null v

/-! ## Region lookup -/

/-- The heap layout read by the region lookup: the width `w` of a machine word in bits, the
heap base, the number of regions, the region size shift and the region table. Addresses are
byte addresses here, as in the source. -/
structure HeapLayout where
  w : Nat
  base : Nat
  num_regions : Nat
  region_size_bytes_shift : Nat
  regions : Nat → Nat

/-- The source's `ShenandoahHeap::heap_region_index_containing`; the subtraction is on
`uintptr_t`, that is modulo `2 ^ w`. -/
def heap_region_index_containing (H : HeapLayout) (addr : Nat) : Nat :=
  ((addr + (2 ^ H.w - H.base % 2 ^ H.w)) % 2 ^ H.w) / 2 ^ H.region_size_bytes_shift

/-- The source's `ShenandoahHeap::get_region`; `none` is the out-of-bounds `NULL`. -/
def get_region (H : HeapLayout) (region_idx : Nat) : Option Nat :=
  if region_idx < H.num_regions then some (H.regions region_idx) else none

/-- The source's `ShenandoahHeap::heap_region_containing`. -/
def heap_region_containing (H : HeapLayout) (addr : Nat) : Option Nat :=
  get_region H (heap_region_index_containing H addr)

/-! ## Promotion decision and object age -/

/-- The source's `ShenandoahHeap::evacuate_object` together with the target generations of
the `try_evacuate_object` calls it makes, in order. -/
def evacuate_object_traced (F : VM) (E : Allocators) (p : Nat) (s : State) :
    (Nat × State) × List ShenandoahRegionAffiliation :=
  if s.thread.oom_during_evac then ((resolve_forwarded s p, s), [])
  else
    let r : ShenandoahHeapRegion := F.heap_region_containing p
    let target_gen : ShenandoahRegionAffiliation := r.affiliation
    if F.is_generational && F.is_gc_generation_young
        && decide (target_gen = YOUNG_GENERATION) && F.ShenandoahPromoteTenuredObjects then
      if is_forwarded s p then ((resolve_forwarded s p, s), [])
      else
        match s.mem p with
        | HeapWord.displaced _ => (try_evacuate_object F E p r target_gen s, [target_gen])
        | HeapWord.neutral mark =>
          if F.InitialTenuringThreshold ≤ (r.age + mark.age) % 2 ^ 32 then
            if (try_evacuate_object F E p r OLD_GENERATION s).1 ≠ 0 then
              (try_evacuate_object F E p r OLD_GENERATION s, [OLD_GENERATION])
            else
              (try_evacuate_object F E p r target_gen
                (try_evacuate_object F E p r OLD_GENERATION s).2,
               [OLD_GENERATION, target_gen])
          else (try_evacuate_object F E p r target_gen s, [target_gen])
    else (try_evacuate_object F E p r target_gen s, [target_gen])

/-- The age recorded for the object at `obj`: the age in its header, or in its displaced
header when the header is displaced. -/
def object_age (s : State) (obj : Nat) : Nat :=
  match s.mem obj with
  | HeapWord.neutral w => w.age
  | HeapWord.displaced lr => (s.lockrec lr).age

/-! ## Marked object iteration -/

/-- The bounds of a region read by `marked_object_iterate`. -/
structure RegionBounds where
  bottom : Nat
  end_ : Nat
deriving DecidableEq, Repr

/-- The search behind `get_next_marked_addr`: the first marked address among the `n`
addresses from `a` on, or `a + n` when none of them is marked. -/
def next_marked_from (marked : Nat → Bool) : Nat → Nat → Nat
  | 0, a => a
  | n + 1, a => if marked a then a else next_marked_from marked n (a + 1)

/-- Modelled from the spec: `ShenandoahMarkingContext::get_next_marked_addr`, which returns
the least marked address in `[start, limit)`, or `limit` when there is none. -/
def get_next_marked_addr (marked : Nat → Bool) (start limit : Nat) : Nat :=
  next_marked_from marked (limit - start) start

/-- The step that both bitmap scans of `marked_object_iterate` take after a candidate:
`cb += skip_bitmap_delta`, then the next marked address when still below the limit. -/
def advance_bitmap (marked : Nat → Bool) (limit_bitmap cb : Nat) : Nat :=
  if cb + 1 < limit_bitmap then get_next_marked_addr marked (cb + 1) limit_bitmap else cb + 1

/-- The plain bitmap scan of `marked_object_iterate` (prefetch distance not positive): the
objects passed to the closure, or `none` when `fuel` iterations do not finish the loop. -/
def scan_plain (marked : Nat → Bool) (limit_bitmap : Nat) : Nat → Nat → Option (List Nat)
  | 0, cb => if cb < limit_bitmap then none else some []
  | fuel + 1, cb =>
    if cb < limit_bitmap then
      (scan_plain marked limit_bitmap fuel (advance_bitmap marked limit_bitmap cb)).map
        (fun l => cb :: l)
    else some []

/-- The first inner loop of the batched scan: it fills at most `dist` slots with candidates
and returns the slots and the candidate it stopped at. -/
def fill_slots (marked : Nat → Bool) (limit_bitmap : Nat) : Nat → Nat → List Nat × Nat
  | 0, cb => ([], cb)
  | dist + 1, cb =>
    if cb < limit_bitmap then
      (cb :: (fill_slots marked limit_bitmap dist (advance_bitmap marked limit_bitmap cb)).1,
       (fill_slots marked limit_bitmap dist (advance_bitmap marked limit_bitmap cb)).2)
    else ([], cb)

/-- The batched bitmap scan of `marked_object_iterate` (positive prefetch distance): each
round fills the slots and passes them to the closure in order, until a round finds no
candidate; `none` when `fuel` rounds do not finish the loop. -/
def scan_batched (marked : Nat → Bool) (limit_bitmap dist : Nat) :
    Nat → Nat → Option (List Nat)
  | 0, _ => none
  | fuel + 1, cb =>
    if 0 < (fill_slots marked limit_bitmap dist cb).1.length then
      (scan_batched marked limit_bitmap dist fuel (fill_slots marked limit_bitmap dist cb).2).map
        (fun l => (fill_slots marked limit_bitmap dist cb).1 ++ l)
    else some (fill_slots marked limit_bitmap dist cb).1

/-- The size-based traversal past the top-at-mark-start of `marked_object_iterate`; `none`
when `fuel` iterations do not finish the loop. The source holds the object size in an `int`;
it is the number `F.size cs` here. -/
def size_walk (F : VM) (limit : Nat) : Nat → Nat → Option (List Nat)
  | 0, cs => if cs < limit then none else some []
  | fuel + 1, cs =>
    if cs < limit then (size_walk F limit fuel (cs + F.size cs)).map (fun l => cs :: l)
    else some []

/-- The source's `ShenandoahHeap::marked_object_iterate(region, cl, limit)`: the sequence of
objects passed to the closure. `dist` is the value of `ShenandoahMarkScanPrefetch`; the
result is `none` when the `guarantee` on `dist` fails or a loop does not finish within `fuel`
iterations. -/
def marked_object_iterate (F : VM) (marked : Nat → Bool) (region : RegionBounds)
    (tams limit : Nat) (dist : Int) (fuel : Nat) : Option (List Nat) :=
  let start : Nat := region.bottom
  let end_ : Nat := min tams region.end_
  let limit_bitmap : Nat := min limit tams
  let cb : Nat := get_next_marked_addr marked start end_
  let below : Option (List Nat) :=
    if 0 < dist then
      if dist ≤ 256 then scan_batched marked limit_bitmap dist.toNat fuel cb else none
    else scan_plain marked limit_bitmap fuel cb
  below.bind (fun l1 => (size_walk F limit fuel tams).map (fun l2 => l1 ++ l2))

/-- The marked addresses in `[lo, hi)` in increasing order, as the claim states them. -/
def marked_addresses (marked : Nat → Bool) (lo hi : Nat) : List Nat :=
  (List.range' lo (hi - lo)).filter (fun a => marked a)

/-- The objects found by walking from `cs` in steps of each object's size while the address
is below `limit`, as the claim states them; at most `n` objects are listed. -/
def objects_from (F : VM) (limit : Nat) : Nat → Nat → List Nat
  | 0, _ => []
  | n + 1, cs => if cs < limit then cs :: objects_from F limit n (cs + F.size cs) else []

/-! ## More concrete inputs -/

/-- A young region of age 6. -/
def aged_region : ShenandoahHeapRegion :=
  { affiliation := YOUNG_GENERATION, age := 6, humongous := false }

/-- The heap `generational_vm` with every object in `aged_region`. -/
def aged_vm : VM :=
  { generational_vm with heap_region_containing := fun _ => aged_region }

/-- A compressed-reference encoding with base 0 and shift 3. -/
def shifted_oops : CompressedOops :=
  { encode := fun v => v / 8, encode_not_null := fun v => v / 8,
    decode := fun n => n * 8, decode_not_null := fun n => n * 8 }

/-- An update pass whose collection set holds the object at 40 only. -/
def update_env : RefEnv :=
  { oops := shifted_oops, in_collection_set := fun a => decide (a = 40) }

/-- A heap in which the compressed slot at 10 refers to the object at 40, which is forwarded
to 80; no other slot holds a reference and no other object is forwarded. -/
def ref_heap : RefHeap :=
  { slot := fun a => if a = 10 then 5 else 0,
    fwd := fun a => if a = 40 then 80 else a,
    trace := [] }

/-- A 32-bit heap of four regions of 1024 bytes that starts at 4096. -/
def small_layout : HeapLayout :=
  { w := 32, base := 4096, num_regions := 4, region_size_bytes_shift := 10,
    regions := fun i => 100 + i }

/-- A heap whose objects all have two words. -/
def two_word_vm : VM :=
  { generational_vm with size := fun _ => 2 }

/-- A marking bitmap with the addresses 3, 5 and 6 marked. -/
def bitmap_356 : Nat → Bool :=
  fun a => decide (a = 3) || decide (a = 5) || decide (a = 6)

/-! ## Auxiliary facts about one evacuation call -/

theorem try_update_forwardee_fst (p update : Nat) (s : State) :
    (try_update_forwardee p update s).1 = if s.fwd p = p then update else s.fwd p := by
  unfold try_update_forwardee
  split <;> rfl

theorem try_update_forwardee_fwd (p update : Nat) (s : State) :
    (try_update_forwardee p update s).2.fwd p = if s.fwd p = p then update else s.fwd p := by
  unfold try_update_forwardee
  split <;> simp [State.log]

theorem increase_object_age_fwd (obj add : Nat) (s : State) :
    (increase_object_age obj add s).fwd = s.fwd := by
  unfold increase_object_age
  split <;> rfl

theorem evac_install_fst_cas (F : VM) (p : Nat) (r : ShenandoahHeapRegion)
    (g : ShenandoahRegionAffiliation) (size : Nat) (pr : Bool) (copy : Nat) (lab : Bool)
    (s : State) :
    (evac_install F p r g size pr copy lab s).1
      = (try_update_forwardee p copy (aligned_disjoint_words p copy size s)).1 := by
  unfold evac_install
  by_cases hw : (try_update_forwardee p copy (aligned_disjoint_words p copy size s)).1 = copy
  · by_cases h1 : F.is_generational = true <;> by_cases h2 : F.is_aging_cycle = true <;>
      cases g <;> simp [hw, h1, h2]
  · cases lab <;> cases pr <;> cases g <;> simp [hw]

theorem evac_install_fwd_cas (F : VM) (p : Nat) (r : ShenandoahHeapRegion)
    (g : ShenandoahRegionAffiliation) (size : Nat) (pr : Bool) (copy : Nat) (lab : Bool)
    (s : State) :
    (evac_install F p r g size pr copy lab s).2.fwd
      = (try_update_forwardee p copy (aligned_disjoint_words p copy size s)).2.fwd := by
  unfold evac_install
  by_cases hw : (try_update_forwardee p copy (aligned_disjoint_words p copy size s)).1 = copy
  · by_cases h1 : F.is_generational = true <;> by_cases h2 : F.is_aging_cycle = true <;>
      cases g <;> simp [hw, h1, h2, increase_object_age_fwd, State.log]
  · cases lab <;> cases pr <;> cases g <;> simp [hw, State.log]

theorem evac_install_fst (F : VM) (p : Nat) (r : ShenandoahHeapRegion)
    (g : ShenandoahRegionAffiliation) (size : Nat) (pr : Bool) (copy : Nat) (lab : Bool)
    (s : State) :
    (evac_install F p r g size pr copy lab s).1 = if s.fwd p = p then copy else s.fwd p := by
  rw [evac_install_fst_cas, try_update_forwardee_fst]
  rfl

theorem evac_install_fwd (F : VM) (p : Nat) (r : ShenandoahHeapRegion)
    (g : ShenandoahRegionAffiliation) (size : Nat) (pr : Bool) (copy : Nat) (lab : Bool)
    (s : State) :
    (evac_install F p r g size pr copy lab s).2.fwd p
      = if s.fwd p = p then copy else s.fwd p := by
  rw [evac_install_fwd_cas, try_update_forwardee_fwd]
  rfl

theorem evac_alloc_failure_fwd (p : Nat) (r : ShenandoahHeapRegion)
    (g : ShenandoahRegionAffiliation) (size : Nat) (s : State) :
    (evac_alloc_failure p r g size s).2.fwd = s.fwd := by
  unfold evac_alloc_failure
  split
  · rfl
  · simp only []
    split <;> rfl

theorem evac_alloc_failure_fst (p : Nat) (r : ShenandoahHeapRegion)
    (g : ShenandoahRegionAffiliation) (size : Nat) (s : State) :
    (evac_alloc_failure p r g size s).1
      = if g = OLD_GENERATION ∧ r.is_young = true then 0 else resolve_forwarded s p := by
  unfold evac_alloc_failure
  split
  · rfl
  · simp only []
    split <;> rfl

/-- Either the call is a failed promotion (it returns `NULL` and leaves every forwarding slot
alone), or it returns the non-null forwarding target that `p` has after the call. -/
theorem try_evacuate_object_cases (F : VM) (E : Allocators) (p : Nat) (r : ShenandoahHeapRegion)
    (g : ShenandoahRegionAffiliation) (s : State) (hp : p ≠ 0) (hfwd : s.fwd p ≠ 0) :
    ((try_evacuate_object F E p r g s).1 = 0 ∧ g = OLD_GENERATION ∧ r.is_young = true
        ∧ (try_evacuate_object F E p r g s).2.fwd = s.fwd)
    ∨ ((try_evacuate_object F E p r g s).1 ≠ 0
        ∧ (try_evacuate_object F E p r g s).1 = (try_evacuate_object F E p r g s).2.fwd p) := by
  unfold try_evacuate_object
  simp only []
  split
  · rw [evac_alloc_failure_fst, evac_alloc_failure_fwd]
    by_cases hg : g = OLD_GENERATION ∧ r.is_young = true
    · left
      simp [hg]
    · right
      simp [hg, resolve_forwarded, hp, hfwd]
  · rename_i hc
    right
    rw [evac_install_fst, evac_install_fwd]
    refine ⟨?_, rfl⟩
    split
    · exact hc
    · exact hfwd

theorem try_evacuate_object_home (F : VM) (E : Allocators) (p : Nat) (r : ShenandoahHeapRegion)
    (s : State) (hp : p ≠ 0) (hfwd : s.fwd p ≠ 0) :
    (try_evacuate_object F E p r r.affiliation s).1 ≠ 0
      ∧ (try_evacuate_object F E p r r.affiliation s).1
          = (try_evacuate_object F E p r r.affiliation s).2.fwd p := by
  rcases try_evacuate_object_cases F E p r r.affiliation s hp hfwd with h | h
  · obtain ⟨_, hg, hy, _⟩ := h
    simp [ShenandoahHeapRegion.is_young, hg] at hy
  · exact h

theorem try_evacuate_object_allocated (F : VM) (E : Allocators) (p : Nat)
    (r : ShenandoahHeapRegion) (g : ShenandoahRegionAffiliation) (s : State)
    (hc : (evac_allocate F E (F.size p) (decide (g = OLD_GENERATION) && r.is_young) g
            s.thread).copy ≠ 0) :
    try_evacuate_object F E p r g s
      = evac_install F p r g (F.size p) (decide (g = OLD_GENERATION) && r.is_young)
          (evac_allocate F E (F.size p) (decide (g = OLD_GENERATION) && r.is_young) g
            s.thread).copy
          (evac_allocate F E (F.size p) (decide (g = OLD_GENERATION) && r.is_young) g
            s.thread).alloc_from_lab
          { s with thread :=
              (evac_allocate F E (F.size p) (decide (g = OLD_GENERATION) && r.is_young) g
                s.thread).thread } := by
  unfold try_evacuate_object
  simp only []
  rw [if_neg hc]

theorem try_evacuate_object_failed (F : VM) (E : Allocators) (p : Nat)
    (r : ShenandoahHeapRegion) (g : ShenandoahRegionAffiliation) (s : State)
    (hc : (evac_allocate F E (F.size p) (decide (g = OLD_GENERATION) && r.is_young) g
            s.thread).copy = 0) :
    try_evacuate_object F E p r g s
      = evac_alloc_failure p r g (F.size p)
          { s with thread :=
              (evac_allocate F E (F.size p) (decide (g = OLD_GENERATION) && r.is_young) g
                s.thread).thread } := by
  unfold try_evacuate_object
  simp only []
  rw [if_pos hc]

theorem caller_call (F : VM) (p : Nat) (r : ShenandoahHeapRegion)
    (g : ShenandoahRegionAffiliation) (c : Caller) (s : State) (hc : c.copy F p r g ≠ 0) :
    (try_evacuate_object F c.allocators p r g { s with thread := c.thread }).1
        = (if s.fwd p = p then c.copy F p r g else s.fwd p)
      ∧ (try_evacuate_object F c.allocators p r g { s with thread := c.thread }).2.fwd p
        = (if s.fwd p = p then c.copy F p r g else s.fwd p) := by
  have h := try_evacuate_object_allocated F c.allocators p r g { s with thread := c.thread } hc
  rw [h, evac_install_fst, evac_install_fwd]
  exact ⟨rfl, rfl⟩

theorem run_calls_length (F : VM) (p : Nat) (r : ShenandoahHeapRegion)
    (g : ShenandoahRegionAffiliation) (cs : List Caller) :
    ∀ s : State, (run_calls F p r g cs s).1.length = cs.length := by
  induction cs with
  | nil => intro s; rfl
  | cons c cs ih =>
    intro s
    simp [run_calls, ih]

theorem run_calls_forwarded (F : VM) (p : Nat) (r : ShenandoahHeapRegion)
    (g : ShenandoahRegionAffiliation) (t : Nat) (ht : t ≠ p) (cs : List Caller) :
    ∀ s : State, s.fwd p = t → (∀ d ∈ cs, d.copy F p r g ≠ 0) →
      (run_calls F p r g cs s).2.fwd p = t ∧ ∀ ret ∈ (run_calls F p r g cs s).1, ret = t := by
  induction cs with
  | nil =>
    intro s hs _
    exact ⟨hs, by simp [run_calls]⟩
  | cons c cs ih =>
    intro s hs hall
    have hc : c.copy F p r g ≠ 0 := hall c (List.mem_cons_self c cs)
    have hcall := caller_call F p r g c s hc
    have hne : ¬ s.fwd p = p := by rw [hs]; exact ht
    rw [if_neg hne, hs] at hcall
    have hrest := ih (try_evacuate_object F c.allocators p r g { s with thread := c.thread }).2
      hcall.2 (fun d hd => hall d (List.mem_cons_of_mem c hd))
    refine ⟨hrest.1, ?_⟩
    intro ret hret
    simp only [run_calls, List.mem_cons] at hret
    rcases hret with h | h
    · rw [h]; exact hcall.1
    · exact hrest.2 ret h

theorem try_update_forwardee_mem (p update : Nat) (s : State) :
    (try_update_forwardee p update s).2.mem = s.mem := by
  unfold try_update_forwardee
  split <;> rfl

theorem try_update_forwardee_lockrec (p update : Nat) (s : State) :
    (try_update_forwardee p update s).2.lockrec = s.lockrec := by
  unfold try_update_forwardee
  split <;> rfl

/-- The state in which the winner of the forwarding compare-and-swap leaves the heap. -/
theorem evac_install_won (F : VM) (p : Nat) (r : ShenandoahHeapRegion)
    (g : ShenandoahRegionAffiliation) (size : Nat) (pr : Bool) (copy : Nat) (lab : Bool)
    (s : State) (hunforwarded : s.fwd p = p) :
    (evac_install F p r g size pr copy lab s).2
      = if F.is_generational then
          match g with
          | OLD_GENERATION =>
            (try_update_forwardee p copy (aligned_disjoint_words p copy size s)).2.log
              (Event.handle_old_evacuation copy size r.is_young)
          | YOUNG_GENERATION =>
            if F.is_aging_cycle then
              increase_object_age copy ((r.age + 1) % 2 ^ 32)
                (try_update_forwardee p copy (aligned_disjoint_words p copy size s)).2
            else (try_update_forwardee p copy (aligned_disjoint_words p copy size s)).2
        else (try_update_forwardee p copy (aligned_disjoint_words p copy size s)).2 := by
  have hw : (try_update_forwardee p copy (aligned_disjoint_words p copy size s)).1 = copy := by
    rw [try_update_forwardee_fst]
    exact if_pos hunforwarded
  unfold evac_install
  by_cases h1 : F.is_generational = true <;> by_cases h2 : F.is_aging_cycle = true <;>
    cases g <;> simp [hw, h1, h2]

theorem copied_word (p copy size i : Nat) (s : State) (hi : i < size) :
    (aligned_disjoint_words p copy size s).mem (copy + i) = s.mem (p + i) := by
  simp [aligned_disjoint_words, hi]

/-- The thread of the loser of the forwarding compare-and-swap after the call. -/
theorem evac_install_lost_thread (F : VM) (p : Nat) (r : ShenandoahHeapRegion)
    (g : ShenandoahRegionAffiliation) (size : Nat) (pr : Bool) (copy : Nat) (lab : Bool)
    (s : State) (hforwarded : s.fwd p ≠ p) (hother : s.fwd p ≠ copy) :
    (evac_install F p r g size pr copy lab s).2.thread
      = if lab then
          match g with
          | YOUNG_GENERATION =>
            { (s.thread.log (Event.aligned_disjoint_words p copy size)).log
                (Event.try_update_forwardee p copy) with
                gclab := s.thread.gclab.map (fun l => l.undo_allocation copy size) }
          | OLD_GENERATION =>
            if pr then
              subtract_from_plab_promoted
                { (s.thread.log (Event.aligned_disjoint_words p copy size)).log
                    (Event.try_update_forwardee p copy) with
                    plab := s.thread.plab.map (fun l => l.undo_allocation copy size) }
                (size * F.HeapWordSize)
            else
              subtract_from_plab_evacuated
                { (s.thread.log (Event.aligned_disjoint_words p copy size)).log
                    (Event.try_update_forwardee p copy) with
                    plab := s.thread.plab.map (fun l => l.undo_allocation copy size) }
                (size * F.HeapWordSize)
        else
          ((s.thread.log (Event.aligned_disjoint_words p copy size)).log
            (Event.try_update_forwardee p copy)).log (Event.fill_with_object copy size) := by
  have hw : (try_update_forwardee p copy (aligned_disjoint_words p copy size s)).1 ≠ copy := by
    rw [try_update_forwardee_fst]
    show (if s.fwd p = p then copy else s.fwd p) ≠ copy
    rw [if_neg hforwarded]
    exact hother
  have h2 : (try_update_forwardee p copy (aligned_disjoint_words p copy size s)).2
      = (aligned_disjoint_words p copy size s).log (Event.try_update_forwardee p copy) := by
    unfold try_update_forwardee
    have : ¬ (aligned_disjoint_words p copy size s).fwd p = p := hforwarded
    rw [if_neg this]
  have hT : (aligned_disjoint_words p copy size s).thread
      = s.thread.log (Event.aligned_disjoint_words p copy size) := rfl
  unfold evac_install
  simp only []
  rw [if_neg hw, h2]
  generalize aligned_disjoint_words p copy size s = s1 at hT
  cases lab <;> cases pr <;> cases g <;>
    simp [State.log, hT, subtract_from_plab_promoted, subtract_from_plab_evacuated] <;>
    simp [Thread.log]

/-- The same, for a heap whose calling thread is `t`. -/
theorem evac_install_lost_thread_of (F : VM) (p : Nat) (r : ShenandoahHeapRegion)
    (g : ShenandoahRegionAffiliation) (size : Nat) (pr : Bool) (copy : Nat) (lab : Bool)
    (s : State) (t : Thread) (hforwarded : s.fwd p ≠ p) (hother : s.fwd p ≠ copy) :
    (evac_install F p r g size pr copy lab { s with thread := t }).2.thread
      = if lab then
          match g with
          | YOUNG_GENERATION =>
            { (t.log (Event.aligned_disjoint_words p copy size)).log
                (Event.try_update_forwardee p copy) with
                gclab := t.gclab.map (fun l => l.undo_allocation copy size) }
          | OLD_GENERATION =>
            if pr then
              subtract_from_plab_promoted
                { (t.log (Event.aligned_disjoint_words p copy size)).log
                    (Event.try_update_forwardee p copy) with
                    plab := t.plab.map (fun l => l.undo_allocation copy size) }
                (size * F.HeapWordSize)
            else
              subtract_from_plab_evacuated
                { (t.log (Event.aligned_disjoint_words p copy size)).log
                    (Event.try_update_forwardee p copy) with
                    plab := t.plab.map (fun l => l.undo_allocation copy size) }
                (size * F.HeapWordSize)
        else
          ((t.log (Event.aligned_disjoint_words p copy size)).log
            (Event.try_update_forwardee p copy)).log (Event.fill_with_object copy size) :=
  evac_install_lost_thread F p r g size pr copy lab { s with thread := t } hforwarded hother

theorem PLAB.allocate_undo (lab : PLAB) (size obj : Nat) (h : (lab.allocate size).1 ≠ 0) :
    (lab.allocate size).2.undo_allocation obj size = lab := by
  unfold PLAB.allocate at h ⊢
  split
  · simp [PLAB.undo_allocation]
  · rename_i hn
    rw [if_neg hn] at h
    exact absurd rfl h

/-- The allocation part when the bump allocation of the thread's GCLAB serves the request. -/
theorem evac_allocate_gclab_fast (F : VM) (E : Allocators) (size : Nat) (pr : Bool)
    (t : Thread) (lab : PLAB) (htlab : F.UseTLAB = true) (hlab : t.gclab = some lab)
    (hfast : (lab.allocate size).1 ≠ 0) :
    evac_allocate F E size pr YOUNG_GENERATION t
      = { copy := (lab.allocate size).1,
          alloc_from_lab := true,
          thread := { t with gclab := some (lab.allocate size).2 } } := by
  have ha : allocate_from_gclab E size t
      = ((lab.allocate size).1, { t with gclab := some (lab.allocate size).2 }) := by
    unfold allocate_from_gclab
    rw [hlab]
    simp [hfast]
  unfold evac_allocate
  simp [htlab, ha, hfast]

/-- The allocation part when the bump allocation of the thread's PLAB serves the request. -/
theorem evac_allocate_plab_fast (F : VM) (E : Allocators) (size : Nat) (pr : Bool)
    (t : Thread) (lab : PLAB) (htlab : F.UseTLAB = true) (hu : F.ShenandoahUsePLAB = true)
    (hgate : ¬ (pr = true ∧ t.allow_plab_promotions = false))
    (hlab : t.plab = some lab) (hfast : (lab.allocate size).1 ≠ 0) :
    evac_allocate F E size pr OLD_GENERATION t
      = { copy := (lab.allocate size).1,
          alloc_from_lab := true,
          thread :=
            if pr then
              add_to_plab_promoted { t with plab := some (lab.allocate size).2 }
                (size * F.HeapWordSize)
            else
              add_to_plab_evacuated { t with plab := some (lab.allocate size).2 }
                (size * F.HeapWordSize) } := by
  have ha : allocate_from_plab F E size pr t
      = ((lab.allocate size).1,
          if pr then
            add_to_plab_promoted { t with plab := some (lab.allocate size).2 }
              (size * F.HeapWordSize)
          else
            add_to_plab_evacuated { t with plab := some (lab.allocate size).2 }
              (size * F.HeapWordSize)) := by
    unfold allocate_from_plab
    have hg : (pr && !t.allow_plab_promotions) = false := by
      cases pr <;> cases hallow : t.allow_plab_promotions <;> simp_all
    rw [hg, hlab]
    cases pr <;> simp [hfast]
  unfold evac_allocate
  simp [htlab, hu, ha, hfast]

theorem PLAB.allocate_fst (lab : PLAB) (size : Nat) (h : (lab.allocate size).1 ≠ 0) :
    (lab.allocate size).1 = lab.top := by
  unfold PLAB.allocate at h ⊢
  split
  · rfl
  · rename_i hn
    rw [if_neg hn] at h
    exact absurd rfl h

/-- The allocation-failure part for an old target and an old source region. -/
theorem evac_alloc_failure_old (p : Nat) (r : ShenandoahHeapRegion) (size : Nat) (s : State)
    (hold : r.is_young = false) :
    (evac_alloc_failure p r OLD_GENERATION size s).1 = resolve_forwarded s p
      ∧ (evac_alloc_failure p r OLD_GENERATION size s).2.thread.trace
          = s.thread.trace
              ++ [Event.handle_old_evacuation_failure, Event.handle_alloc_failure_evac size,
                  Event.handle_out_of_memory_during_evacuation]
      ∧ (evac_alloc_failure p r OLD_GENERATION size s).2.thread.oom_during_evac = true
      ∧ (evac_alloc_failure p r OLD_GENERATION size s).2.mem = s.mem := by
  unfold evac_alloc_failure
  simp [hold, handle_out_of_memory_during_evacuation, State.log, Thread.log, resolve_forwarded]

/-- The totals of a thread that loses the compare-and-swap after the bump allocation of its
PLAB served the copy at the first attempt: what `allocate_from_plab` added is subtracted. -/
theorem plab_fast_loss_totals (F : VM) (E : Allocators) (p : Nat) (r : ShenandoahHeapRegion)
    (s : State) (lab : PLAB) (htlab : F.UseTLAB = true) (hu : F.ShenandoahUsePLAB = true)
    (hgate : ¬ (r.is_young = true ∧ s.thread.allow_plab_promotions = false))
    (hlab : s.thread.plab = some lab) (hfast : (lab.allocate (F.size p)).1 ≠ 0)
    (hforwarded : s.fwd p ≠ p) (hother : s.fwd p ≠ (lab.allocate (F.size p)).1) :
    (try_evacuate_object F E p r OLD_GENERATION s).2.thread.plab_promoted
        = s.thread.plab_promoted
      ∧ (try_evacuate_object F E p r OLD_GENERATION s).2.thread.plab_evacuated
        = s.thread.plab_evacuated := by
  have hgate1 : ¬ ((decide (OLD_GENERATION = OLD_GENERATION) && r.is_young) = true
      ∧ s.thread.allow_plab_promotions = false) := by
    intro h
    apply hgate
    refine ⟨?_, h.2⟩
    simpa using h.1
  have hfa := evac_allocate_plab_fast F E (F.size p)
    (decide (OLD_GENERATION = OLD_GENERATION) && r.is_young) s.thread lab htlab hu hgate1
    hlab hfast
  have hc : (evac_allocate F E (F.size p)
      (decide (OLD_GENERATION = OLD_GENERATION) && r.is_young) OLD_GENERATION
      s.thread).copy ≠ 0 := by
    rw [hfa]
    exact hfast
  rw [try_evacuate_object_allocated F E p r OLD_GENERATION s hc, hfa]
  dsimp only
  rw [evac_install_lost_thread_of _ _ _ _ _ _ _ _ _ _ hforwarded hother]
  cases hy : r.is_young <;>
    simp [add_to_plab_promoted, add_to_plab_evacuated, subtract_from_plab_promoted,
      subtract_from_plab_evacuated, Thread.log]

/-! ## The trace of the allocation part -/

theorem allocate_from_gclab_trace (E : Allocators) (size : Nat) (t : Thread) :
    ∃ evs, (allocate_from_gclab E size t).2.trace = t.trace ++ evs
      ∧ ∀ e ∈ evs, e.is_allocation = true := by
  unfold allocate_from_gclab
  cases t.gclab with
  | none => exact ⟨[], by simp, by simp⟩
  | some lab =>
    simp only []
    split
    · exact ⟨[], by simp, by simp⟩
    · exact ⟨[Event.allocate_from_gclab_slow size],
        by simp [allocate_from_gclab_slow, Thread.log], by simp [Event.is_allocation]⟩

theorem allocate_from_plab_trace (F : VM) (E : Allocators) (size : Nat) (pr : Bool)
    (t : Thread) :
    ∃ evs, (allocate_from_plab F E size pr t).2.trace = t.trace ++ evs
      ∧ ∀ e ∈ evs, e.is_allocation = true := by
  unfold allocate_from_plab
  split
  · exact ⟨[], by simp, by simp⟩
  · cases t.plab with
    | none => exact ⟨[], by simp, by simp⟩
    | some lab =>
      simp only []
      by_cases h0 : (lab.allocate size).1 = 0
      · refine ⟨[Event.allocate_from_plab_slow size pr], ?_, by simp [Event.is_allocation]⟩
        cases pr <;>
          simp [h0, allocate_from_plab_slow, Thread.log, add_to_plab_promoted,
            add_to_plab_evacuated]
      · refine ⟨[], ?_, by simp⟩
        cases pr <;> simp [h0, add_to_plab_promoted, add_to_plab_evacuated]

theorem evac_allocate_trace (F : VM) (E : Allocators) (size : Nat) (pr : Bool)
    (g : ShenandoahRegionAffiliation) (t : Thread) :
    ∃ evs, (evac_allocate F E size pr g t).thread.trace = t.trace ++ evs
      ∧ ∀ e ∈ evs, e.is_allocation = true := by
  have hlab : ∀ (x : Nat × Thread), (∃ evs, x.2.trace = t.trace ++ evs
      ∧ ∀ e ∈ evs, e.is_allocation = true) →
      ∃ evs, (if x.1 = 0 then
                ({ copy := E.allocate_memory size g pr, alloc_from_lab := false,
                   thread := x.2.log (Event.allocate_memory size g pr) } : Allocation)
              else { copy := x.1, alloc_from_lab := true, thread := x.2 }).thread.trace
              = t.trace ++ evs
        ∧ ∀ e ∈ evs, e.is_allocation = true := by
    intro x hx
    obtain ⟨evs, h1, h2⟩ := hx
    split
    · refine ⟨evs ++ [Event.allocate_memory size g pr], ?_, ?_⟩
      · simp [Thread.log, h1]
      · intro e he
        rcases List.mem_append.mp he with h | h
        · exact h2 e h
        · simp at h
          rw [h]
          rfl
    · exact ⟨evs, h1, h2⟩
  unfold evac_allocate
  apply hlab
  split
  · cases g with
    | YOUNG_GENERATION =>
      simp only []
      obtain ⟨e1, h1, a1⟩ := allocate_from_gclab_trace E size t
      split
      · obtain ⟨e2, h2, a2⟩ := allocate_from_gclab_trace E size
          (set_gclab_size (allocate_from_gclab E size t).2 F.PLAB_min_size)
        refine ⟨e1 ++ e2, ?_, ?_⟩
        · rw [h2]
          simp [set_gclab_size, h1]
        · intro e he
          rcases List.mem_append.mp he with h | h
          · exact a1 e h
          · exact a2 e h
      · exact ⟨e1, h1, a1⟩
    | OLD_GENERATION =>
      simp only []
      split
      · obtain ⟨e1, h1, a1⟩ := allocate_from_plab_trace F E size pr t
        split
        · obtain ⟨e2, h2, a2⟩ := allocate_from_plab_trace F E size pr
            (set_plab_size (allocate_from_plab F E size pr t).2 F.PLAB_min_size)
          refine ⟨e1 ++ e2, ?_, ?_⟩
          · rw [h2]
            simp [set_plab_size, h1]
          · intro e he
            rcases List.mem_append.mp he with h | h
            · exact a1 e h
            · exact a2 e h
        · exact ⟨e1, h1, a1⟩
      · exact ⟨[], by simp, by simp⟩
  · exact ⟨[], by simp, by simp⟩

/-! ## Auxiliary facts about the cancellation protocol -/

theorem pending_restore_claimed (prev : CancelState) (h : prev ≠ CANCELLABLE) :
    pending_restore (WorkerPc.claimed prev) = false := by
  cases prev <;> simp [pending_restore] at h ⊢

theorem pending_restore_yielded (prev : CancelState) (h : prev ≠ CANCELLABLE) :
    pending_restore (WorkerPc.yielded prev) = false := by
  cases prev <;> simp [pending_restore] at h ⊢

/-- A step other than `clear_cancelled_gc` keeps a cancelled flag cancelled and creates no
pending restore, provided none is pending. -/
theorem step_keeps_cancelled (F : VM) (c : Config) (l : Step)
    (hflag : c.heap.cancelled_gc_flag = CANCELLED)
    (hpending : ∀ i, pending_restore (c.pc i) = false)
    (hl : l.is_clear = false) :
    (step F c l).heap.cancelled_gc_flag = CANCELLED
      ∧ ∀ i, pending_restore ((step F c l).pc i) = false := by
  cases l with
  | cancel => exact ⟨rfl, hpending⟩
  | clear b => simp [Step.is_clear] at hl
  | worker i sts_active should_yield =>
    have hi := hpending i
    simp only [step, worker_step]
    cases hpc : c.pc i with
    | idle =>
      simp only []
      split
      · exact ⟨hflag, hpending⟩
      · simp only [CancelHeap.cmpxchg, hflag]
        simp
        exact ⟨hflag, hpending⟩
    | claimed prev =>
      have hprev : prev ≠ CANCELLABLE := by
        intro h
        rw [hpc, h] at hi
        simp [pending_restore] at hi
      refine ⟨?_, ?_⟩
      · simp only []
        split
        · exact hflag
        · exact hflag
      · intro j
        simp only []
        split
        · exact pending_restore_yielded prev hprev
        · exact hpending j
    | yielded prev =>
      have hprev : prev ≠ CANCELLABLE := by
        intro h
        rw [hpc, h] at hi
        simp [pending_restore] at hi
      refine ⟨?_, ?_⟩
      · simp only [if_neg hprev]
        exact hflag
      · intro j
        simp only []
        split
        · rfl
        · exact hpending j

/-- Three steps of one worker, taken without interference from an idle position, change the
heap exactly as one call of `check_cancelled_gc_and_yield` does. -/
theorem worker_steps_are_check (F : VM) (i : Nat) (sts_active should_yield : Bool) (c : Config)
    (hidle : c.pc i = WorkerPc.idle) :
    (run F [Step.worker i sts_active should_yield, Step.worker i sts_active should_yield,
        Step.worker i sts_active should_yield] c).heap
      = (check_cancelled_gc_and_yield F sts_active should_yield c.heap).2 := by
  obtain ⟨⟨flag, time, trace⟩, pc⟩ := c
  simp only at hidle
  cases sts_active <;> cases hs : F.ShenandoahSuspendibleWorkers <;> cases should_yield <;>
    cases flag <;>
    simp [run, step, worker_step, check_cancelled_gc_and_yield, hidle, hs, CancelHeap.cmpxchg,
      CancelHeap.set, CancelHeap.yield]

theorem run_keeps_cancelled (F : VM) (steps : List Step) :
    ∀ c : Config, c.heap.cancelled_gc_flag = CANCELLED →
      (∀ i, pending_restore (c.pc i) = false) →
      (∀ l ∈ steps, l.is_clear = false) →
      (run F steps c).heap.cancelled_gc_flag = CANCELLED := by
  induction steps with
  | nil =>
    intro c hflag _ _
    exact hflag
  | cons l ls ih =>
    intro c hflag hpending hsteps
    have h := step_keeps_cancelled F c l hflag hpending (hsteps l (List.mem_cons_self l ls))
    exact ih (step F c l) h.1 h.2 (fun m hm => hsteps m (List.mem_cons_of_mem l hm))

/-! ## Auxiliary facts about the region lookup -/

/-- Subtraction modulo `W` of two numbers that fit. -/
theorem uintptr_sub (a b W : Nat) (ha : a < W) (hb : b ≤ W) :
    (a + (W - b % W)) % W = if b ≤ a then a - b else a + W - b := by
  rcases Nat.lt_or_ge b W with hlt | hge
  · rw [Nat.mod_eq_of_lt hlt]
    split
    · rename_i h
      have : a + (W - b) = (a - b) + W := by omega
      rw [this, Nat.add_mod_right, Nat.mod_eq_of_lt (by omega)]
    · rename_i h
      have : a + (W - b) = a + W - b := by omega
      rw [this, Nat.mod_eq_of_lt (by omega)]
  · have hbW : b = W := by omega
    subst hbW
    rw [Nat.mod_self, Nat.sub_zero, Nat.add_mod_right, Nat.mod_eq_of_lt ha]
    split
    · omega
    · omega

/-- The quotient by the region size is the index of the region that holds the offset. -/
theorem region_quotient (x S n : Nat) (hS : 0 < S) :
    (x / S < n ↔ x < n * S) ∧ x / S * S ≤ x ∧ x < (x / S + 1) * S
      ∧ ∀ i, i * S ≤ x → x < (i + 1) * S → i = x / S := by
  refine ⟨Nat.div_lt_iff_lt_mul hS, Nat.div_mul_le_self x S, ?_, ?_⟩
  · exact (Nat.div_lt_iff_lt_mul hS).mp (Nat.lt_succ_self _)
  · intro i h1 h2
    have h3 : i ≤ x / S := (Nat.le_div_iff_mul_le hS).mpr h1
    have h4 : x / S < i + 1 := (Nat.div_lt_iff_lt_mul hS).mpr h2
    omega

/-! ## Auxiliary facts about promotion and aging -/

/-- The instrumented function computes what `evacuate_object` computes. -/
theorem evacuate_object_traced_fst (F : VM) (E : Allocators) (p : Nat) (s : State) :
    (evacuate_object_traced F E p s).1 = evacuate_object F E p s := by
  unfold evacuate_object_traced evacuate_object
  simp only []
  split
  · rfl
  · split
    · split
      · rfl
      · cases s.mem p with
        | displaced lr => rfl
        | neutral mark =>
          simp only []
          split
          · split <;> rfl
          · rfl
    · rfl

/-- The state in which a call that wins the compare-and-swap for a young target leaves the
heap in a generational aging cycle. -/
theorem try_evacuate_object_aging (F : VM) (E : Allocators) (p : Nat)
    (r : ShenandoahHeapRegion) (s : State)
    (hc : (evac_allocate F E (F.size p)
            (decide (YOUNG_GENERATION = OLD_GENERATION) && r.is_young) YOUNG_GENERATION
            s.thread).copy ≠ 0)
    (hunforwarded : s.fwd p = p) (hgen : F.is_generational = true)
    (haging : F.is_aging_cycle = true) :
    ∃ s1 : State, s1.mem = s.mem ∧ s1.lockrec = s.lockrec
      ∧ (try_evacuate_object F E p r YOUNG_GENERATION s).2
          = increase_object_age
              (evac_allocate F E (F.size p)
                (decide (YOUNG_GENERATION = OLD_GENERATION) && r.is_young) YOUNG_GENERATION
                s.thread).copy
              ((r.age + 1) % 2 ^ 32)
              (try_update_forwardee p
                (evac_allocate F E (F.size p)
                  (decide (YOUNG_GENERATION = OLD_GENERATION) && r.is_young) YOUNG_GENERATION
                  s.thread).copy
                (aligned_disjoint_words p
                  (evac_allocate F E (F.size p)
                    (decide (YOUNG_GENERATION = OLD_GENERATION) && r.is_young) YOUNG_GENERATION
                    s.thread).copy
                  (F.size p) s1)).2 := by
  rw [try_evacuate_object_allocated F E p r YOUNG_GENERATION s hc]
  generalize evac_allocate F E (F.size p)
    (decide (YOUNG_GENERATION = OLD_GENERATION) && r.is_young) YOUNG_GENERATION
    s.thread = A
  have hu : ({ s with thread := A.thread } : State).fwd p = p := hunforwarded
  refine ⟨{ s with thread := A.thread }, rfl, rfl, ?_⟩
  rw [evac_install_won _ _ _ _ _ _ _ _ _ hu]
  simp [hgen, haging]

theorem saturated_age (x : Nat) : min markWord.max_age x % (markWord.max_age + 1)
    = min markWord.max_age x := by
  apply Nat.mod_eq_of_lt
  have : min markWord.max_age x ≤ markWord.max_age := Nat.min_le_left _ _
  omega

/-! ## Auxiliary facts about the marked object iteration -/

theorem next_marked_from_bounds (marked : Nat → Bool) (n : Nat) :
    ∀ a, a ≤ next_marked_from marked n a ∧ next_marked_from marked n a ≤ a + n := by
  induction n with
  | zero => intro a; simp [next_marked_from]
  | succ n ih =>
    intro a
    unfold next_marked_from
    split
    · omega
    · have := ih (a + 1)
      omega

theorem next_marked_from_skips (marked : Nat → Bool) (n : Nat) :
    ∀ a x, a ≤ x → x < next_marked_from marked n a → marked x = false := by
  induction n with
  | zero =>
    intro a x h1 h2
    simp [next_marked_from] at h2
    omega
  | succ n ih =>
    intro a x h1 h2
    unfold next_marked_from at h2
    split at h2
    · omega
    · rename_i hm
      rcases Nat.eq_or_lt_of_le h1 with h | h
      · rw [← h]
        simpa using hm
      · exact ih (a + 1) x h h2

theorem next_marked_from_marked (marked : Nat → Bool) (n : Nat) :
    ∀ a, next_marked_from marked n a < a + n →
      marked (next_marked_from marked n a) = true := by
  induction n with
  | zero =>
    intro a h
    simp [next_marked_from] at h
  | succ n ih =>
    intro a h
    unfold next_marked_from at h ⊢
    split
    · assumption
    · rename_i hm
      rw [if_neg hm] at h
      exact ih (a + 1) (by omega)

/-- What the claim assumes of `get_next_marked_addr`: for `start <= limit` the result is the
least marked address in `[start, limit)`, or `limit`. -/
theorem get_next_marked_addr_spec (marked : Nat → Bool) (start limit : Nat)
    (h : start ≤ limit) :
    start ≤ get_next_marked_addr marked start limit
      ∧ get_next_marked_addr marked start limit ≤ limit
      ∧ (∀ x, start ≤ x → x < get_next_marked_addr marked start limit → marked x = false)
      ∧ (get_next_marked_addr marked start limit < limit →
          marked (get_next_marked_addr marked start limit) = true) := by
  unfold get_next_marked_addr
  have hb := next_marked_from_bounds marked (limit - start) start
  refine ⟨hb.1, by omega, next_marked_from_skips marked (limit - start) start, ?_⟩
  intro hlt
  exact next_marked_from_marked marked (limit - start) start (by omega)

theorem marked_addresses_empty (marked : Nat → Bool) (lo hi : Nat) (h : hi ≤ lo) :
    marked_addresses marked lo hi = [] := by
  unfold marked_addresses
  have : hi - lo = 0 := by omega
  rw [this]
  rfl

theorem marked_addresses_cons (marked : Nat → Bool) (lo hi : Nat) (h : lo < hi) :
    marked_addresses marked lo hi
      = if marked lo then lo :: marked_addresses marked (lo + 1) hi
        else marked_addresses marked (lo + 1) hi := by
  unfold marked_addresses
  have h1 : hi - lo = (hi - (lo + 1)) + 1 := by omega
  rw [h1, List.range'_succ, List.filter_cons]

theorem marked_addresses_skip (marked : Nat → Bool) (hi : Nat) (d : Nat) :
    ∀ lo mid, mid = lo + d → (∀ x, lo ≤ x → x < mid → marked x = false) →
      marked_addresses marked lo hi = marked_addresses marked mid hi := by
  induction d with
  | zero =>
    intro lo mid hm _
    simp at hm
    rw [hm]
  | succ d ih =>
    intro lo mid hm hun
    by_cases hlt : lo < hi
    · rw [marked_addresses_cons marked lo hi hlt, hun lo (Nat.le_refl lo) (by omega)]
      simp only [Bool.false_eq_true, if_false]
      exact ih (lo + 1) mid (by omega) (fun x h1 h2 => hun x (by omega) h2)
    · rw [marked_addresses_empty marked lo hi (by omega),
        marked_addresses_empty marked mid hi (by omega)]

theorem marked_addresses_mem (marked : Nat → Bool) (lo hi a : Nat) :
    a ∈ marked_addresses marked lo hi ↔ lo ≤ a ∧ a < hi ∧ marked a = true := by
  unfold marked_addresses
  rw [List.mem_filter, List.mem_range'_1]
  constructor
  · rintro ⟨⟨h1, h2⟩, h3⟩
    exact ⟨h1, by omega, h3⟩
  · rintro ⟨h1, h2, h3⟩
    exact ⟨⟨h1, by omega⟩, h3⟩

theorem marked_addresses_increasing (marked : Nat → Bool) (lo hi : Nat) :
    (marked_addresses marked lo hi).Pairwise (fun a b => a < b) := by
  unfold marked_addresses
  exact List.Pairwise.filter _ (List.pairwise_lt_range' lo (hi - lo))

/-- The step after a marked candidate below the limit leads to the next candidate. -/
theorem advance_bitmap_spec (marked : Nat → Bool) (lb cb : Nat) (hlt : cb < lb)
    (hm : marked cb = true) :
    cb < advance_bitmap marked lb cb
      ∧ (advance_bitmap marked lb cb < lb → marked (advance_bitmap marked lb cb) = true)
      ∧ marked_addresses marked cb lb
          = cb :: marked_addresses marked (advance_bitmap marked lb cb) lb := by
  rw [marked_addresses_cons marked cb lb hlt, hm]
  simp only [if_true]
  unfold advance_bitmap
  split
  · rename_i h1
    have hs := get_next_marked_addr_spec marked (cb + 1) lb (Nat.le_of_lt h1)
    refine ⟨by omega, hs.2.2.2, ?_⟩
    rw [marked_addresses_skip marked lb
      (get_next_marked_addr marked (cb + 1) lb - (cb + 1)) (cb + 1)
      (get_next_marked_addr marked (cb + 1) lb) (by omega) hs.2.2.1]
  · exact ⟨by omega, fun h => by omega, rfl⟩

theorem scan_plain_spec (marked : Nat → Bool) (lb : Nat) (fuel : Nat) :
    ∀ cb, (cb < lb → marked cb = true) → lb - cb ≤ fuel →
      scan_plain marked lb fuel cb = some (marked_addresses marked cb lb) := by
  induction fuel with
  | zero =>
    intro cb _ hf
    have hge : ¬ cb < lb := by omega
    simp [scan_plain, hge, marked_addresses_empty marked cb lb (by omega)]
  | succ fuel ih =>
    intro cb hcand hf
    unfold scan_plain
    by_cases hlt : cb < lb
    · have ha := advance_bitmap_spec marked lb cb hlt (hcand hlt)
      rw [if_pos hlt, ih (advance_bitmap marked lb cb) ha.2.1 (by omega), ha.2.2]
      rfl
    · rw [if_neg hlt, marked_addresses_empty marked cb lb (by omega)]

theorem fill_slots_spec (marked : Nat → Bool) (lb : Nat) (dist : Nat) :
    ∀ cb, (cb < lb → marked cb = true) →
      marked_addresses marked cb lb
          = (fill_slots marked lb dist cb).1
              ++ marked_addresses marked (fill_slots marked lb dist cb).2 lb
        ∧ ((fill_slots marked lb dist cb).2 < lb →
            marked (fill_slots marked lb dist cb).2 = true)
        ∧ ((fill_slots marked lb dist cb).1 = [] → dist = 0 ∨ lb ≤ cb)
        ∧ ((fill_slots marked lb dist cb).1 ≠ [] →
            cb < lb ∧ cb < (fill_slots marked lb dist cb).2) := by
  induction dist with
  | zero =>
    intro cb hcand
    simp [fill_slots]
    exact hcand
  | succ dist ih =>
    intro cb hcand
    unfold fill_slots
    by_cases hlt : cb < lb
    · have ha := advance_bitmap_spec marked lb cb hlt (hcand hlt)
      have hr := ih (advance_bitmap marked lb cb) ha.2.1
      simp only [if_pos hlt]
      refine ⟨?_, hr.2.1, ?_, ?_⟩
      · rw [ha.2.2, hr.1]
        rfl
      · intro h
        simp at h
      · intro _
        refine ⟨hlt, ?_⟩
        by_cases hnil : (fill_slots marked lb dist (advance_bitmap marked lb cb)).1 = []
        · have hle : advance_bitmap marked lb cb
              ≤ (fill_slots marked lb dist (advance_bitmap marked lb cb)).2 := by
            cases dist with
            | zero => simp [fill_slots]
            | succ d =>
              unfold fill_slots at hnil ⊢
              split
              · rename_i h2
                rw [if_pos h2] at hnil
                simp at hnil
              · exact Nat.le_refl _
          omega
        · have := (hr.2.2.2 hnil).2
          omega
    · simp only [if_neg hlt]
      refine ⟨by simp, fun h => absurd h hlt, fun _ => Or.inr (by omega), fun h => ?_⟩
      exact absurd rfl h

theorem scan_batched_spec (marked : Nat → Bool) (lb dist : Nat) (hdist : 0 < dist)
    (fuel : Nat) :
    ∀ cb, (cb < lb → marked cb = true) → lb - cb < fuel →
      scan_batched marked lb dist fuel cb = some (marked_addresses marked cb lb) := by
  induction fuel with
  | zero =>
    intro cb _ hf
    omega
  | succ fuel ih =>
    intro cb hcand hf
    have hr := fill_slots_spec marked lb dist cb hcand
    unfold scan_batched
    by_cases hnil : (fill_slots marked lb dist cb).1 = []
    · have hlen : ¬ 0 < (fill_slots marked lb dist cb).1.length := by
        rw [hnil]
        simp
      rw [if_neg hlen, hnil]
      rcases hr.2.2.1 hnil with h | h
      · omega
      · rw [marked_addresses_empty marked cb lb h]
    · have hlen : 0 < (fill_slots marked lb dist cb).1.length :=
        List.length_pos.mpr hnil
      have hstep := hr.2.2.2 hnil
      rw [if_pos hlen, ih (fill_slots marked lb dist cb).2 hr.2.1 (by omega)]
      simp only [Option.map_some']
      rw [← hr.1]

theorem size_walk_spec (F : VM) (limit : Nat) (hsize : ∀ a, 0 < F.size a) (fuel : Nat) :
    ∀ n cs, limit - cs ≤ fuel → limit - cs ≤ n →
      size_walk F limit fuel cs = some (objects_from F limit n cs) := by
  induction fuel with
  | zero =>
    intro n cs hf _
    have hge : ¬ cs < limit := by omega
    cases n <;> simp [size_walk, objects_from, hge]
  | succ fuel ih =>
    intro n cs hf hn
    unfold size_walk
    by_cases hlt : cs < limit
    · cases n with
      | zero => omega
      | succ n =>
        have hpos := hsize cs
        rw [if_pos hlt, ih n (cs + F.size cs) (by omega) (by omega)]
        simp [objects_from, hlt]
    · rw [if_neg hlt]
      cases n <;> simp [objects_from, hlt]

/-! ## The claims -/

/-- C1: for every non-null object `p` whose forwarding slot is well formed (it never holds
`NULL`) and for every thread state, flag setting and allocator behaviour, `evacuate_object`
returns a non-null address, and that address is the forwarding target of `p` resolved in the
state after the call. The region of `p` is young exactly when its affiliation is
`YOUNG_GENERATION`; whether it is humongous plays no part. -/
theorem evacuate_object_returns_forwardee (F : VM) (E : Allocators) (p : Nat) (s : State)
    (hp : p ≠ 0) (hfwd : s.fwd p ≠ 0) :
    (evacuate_object F E p s).1 ≠ 0
      ∧ (evacuate_object F E p s).1 = resolve_forwarded (evacuate_object F E p s).2 p := by
  have hres : ∀ s1 : State, resolve_forwarded s1 p = s1.fwd p := by
    intro s1
    simp [resolve_forwarded, hp]
  simp only [hres]
  unfold evacuate_object
  simp only []
  split
  · exact ⟨by simpa [hres] using hfwd, by simp [hres]⟩
  · split
    · split
      · exact ⟨by simpa [hres] using hfwd, by simp [hres]⟩
      · split
        · exact try_evacuate_object_home F E p _ s hp hfwd
        · split
          · split
            · rename_i hne
              rcases try_evacuate_object_cases F E p (F.heap_region_containing p)
                  OLD_GENERATION s hp hfwd with h | h
              · exact absurd h.1 hne
              · exact h
            · rename_i hz
              rcases try_evacuate_object_cases F E p (F.heap_region_containing p)
                  OLD_GENERATION s hp hfwd with h | h
              · apply try_evacuate_object_home F E p _ _ hp
                rw [h.2.2.2]
                exact hfwd
              · exact absurd (not_not.mp hz) h.1
          · exact try_evacuate_object_home F E p _ s hp hfwd
    · exact try_evacuate_object_home F E p _ s hp hfwd

/-- C1, at a concrete input: the object at 100 in a generational aging cycle, evacuated by a
worker with a 64-word GCLAB. -/
theorem evacuate_object_returns_forwardee_witness :
    (100 : Nat) ≠ 0 ∧ (heap_unforwarded worker).fwd 100 ≠ 0
      ∧ (evacuate_object generational_vm exhausted 100 (heap_unforwarded worker)).1 ≠ 0
      ∧ (evacuate_object generational_vm exhausted 100 (heap_unforwarded worker)).1
          = resolve_forwarded
              (evacuate_object generational_vm exhausted 100 (heap_unforwarded worker)).2 100 :=
  ⟨by decide, by decide,
    evacuate_object_returns_forwardee generational_vm exhausted 100 (heap_unforwarded worker)
      (by decide) (by decide)⟩

/-- C2: for every N >= 1 and every object `p` that is not yet forwarded, if N calls of
`try_evacuate_object` on `p` each obtain a copy of their own (allocation succeeds, the copies
are pairwise distinct and none is `p` itself) and their forwarding compare-and-swaps run in
any order (the order of the list), then the copy of the call whose compare-and-swap ran first
is the forwarding target afterwards, every one of the N calls returns that address, and
exactly one of the N copies is the forwarding target. -/
theorem single_writer_convergence (F : VM) (p : Nat) (r : ShenandoahHeapRegion)
    (g : ShenandoahRegionAffiliation) (c : Caller) (cs : List Caller) (s : State)
    (hunforwarded : s.fwd p = p)
    (halloc : ∀ d ∈ c :: cs, d.copy F p r g ≠ 0)
    (hfresh : ∀ d ∈ c :: cs, d.copy F p r g ≠ p)
    (hdistinct : ((c :: cs).map (Caller.copy F p r g)).Nodup) :
    (run_calls F p r g (c :: cs) s).2.fwd p = c.copy F p r g
      ∧ (run_calls F p r g (c :: cs) s).1.length = (c :: cs).length
      ∧ (∀ ret ∈ (run_calls F p r g (c :: cs) s).1, ret = c.copy F p r g)
      ∧ ((c :: cs).map (Caller.copy F p r g)).count ((run_calls F p r g (c :: cs) s).2.fwd p)
          = 1 := by
  have hc : c.copy F p r g ≠ 0 := halloc c (List.mem_cons_self c cs)
  have hcp : c.copy F p r g ≠ p := hfresh c (List.mem_cons_self c cs)
  have hcall := caller_call F p r g c s hc
  rw [if_pos hunforwarded] at hcall
  have hrest := run_calls_forwarded F p r g (c.copy F p r g) hcp cs
    (try_evacuate_object F c.allocators p r g { s with thread := c.thread }).2 hcall.2
    (fun d hd => halloc d (List.mem_cons_of_mem c hd))
  have hfinal : (run_calls F p r g (c :: cs) s).2.fwd p = c.copy F p r g := hrest.1
  refine ⟨hfinal, run_calls_length F p r g (c :: cs) s, ?_, ?_⟩
  · intro ret hret
    simp only [run_calls, List.mem_cons] at hret
    rcases hret with h | h
    · rw [h]; exact hcall.1
    · exact hrest.2 ret h
  · rw [hfinal]
    exact List.count_eq_one_of_mem hdistinct (by simp)

/-- C2, at a concrete input: three workers with buffers at 200, 300 and 500 race for the
object at 100; all of them return 200. -/
theorem single_writer_convergence_witness :
    (run_calls generational_vm 100 young_region YOUNG_GENERATION
        [⟨worker_at 200, exhausted⟩, ⟨worker_at 300, exhausted⟩, ⟨worker_at 500, exhausted⟩]
        (heap_unforwarded worker)).1 = [200, 200, 200]
      ∧ (run_calls generational_vm 100 young_region YOUNG_GENERATION
          [⟨worker_at 200, exhausted⟩, ⟨worker_at 300, exhausted⟩, ⟨worker_at 500, exhausted⟩]
          (heap_unforwarded worker)).2.fwd 100 = 200
      ∧ ((run_calls generational_vm 100 young_region YOUNG_GENERATION
            [⟨worker_at 200, exhausted⟩, ⟨worker_at 300, exhausted⟩, ⟨worker_at 500, exhausted⟩]
            (heap_unforwarded worker)).2.fwd 100 = 200
          ∧ (run_calls generational_vm 100 young_region YOUNG_GENERATION
              [⟨worker_at 200, exhausted⟩, ⟨worker_at 300, exhausted⟩,
                ⟨worker_at 500, exhausted⟩]
              (heap_unforwarded worker)).1.length = 3
          ∧ (∀ ret ∈ (run_calls generational_vm 100 young_region YOUNG_GENERATION
              [⟨worker_at 200, exhausted⟩, ⟨worker_at 300, exhausted⟩,
                ⟨worker_at 500, exhausted⟩]
              (heap_unforwarded worker)).1, ret = 200)
          ∧ ([200, 300, 500] : List Nat).count
              ((run_calls generational_vm 100 young_region YOUNG_GENERATION
                [⟨worker_at 200, exhausted⟩, ⟨worker_at 300, exhausted⟩,
                  ⟨worker_at 500, exhausted⟩]
                (heap_unforwarded worker)).2.fwd 100) = 1) :=
  ⟨by decide, by decide,
    single_writer_convergence generational_vm 100 young_region YOUNG_GENERATION
      ⟨worker_at 200, exhausted⟩ [⟨worker_at 300, exhausted⟩, ⟨worker_at 500, exhausted⟩]
      (heap_unforwarded worker) (by decide) (by decide) (by decide) (by decide)⟩

/-- C3, as amended: whenever `try_evacuate_object` obtains a copy and wins the forwarding
compare-and-swap, it returns the copy, the copy is the forwarding target, and every word of
the copy equals the corresponding word of `p` before the call, except the header word of a
copy made within the young generation in a generational aging cycle: an identity-state
header has its age raised there (a displaced header is copied unchanged). -/
theorem evac_copy_words (F : VM) (E : Allocators) (p : Nat) (r : ShenandoahHeapRegion)
    (g : ShenandoahRegionAffiliation) (s : State) (copy : Nat)
    (hcopy : (evac_allocate F E (F.size p) (decide (g = OLD_GENERATION) && r.is_young) g
               s.thread).copy = copy)
    (hc : copy ≠ 0) (hunforwarded : s.fwd p = p) :
    (try_evacuate_object F E p r g s).1 = copy
      ∧ (try_evacuate_object F E p r g s).2.fwd p = copy
      ∧ (∀ i, i < F.size p →
          (i = 0 → (F.is_generational && decide (g = YOUNG_GENERATION) && F.is_aging_cycle)
                      = false) →
          (try_evacuate_object F E p r g s).2.mem (copy + i) = s.mem (p + i))
      ∧ ((F.is_generational && decide (g = YOUNG_GENERATION) && F.is_aging_cycle) = true →
          0 < F.size p →
          (try_evacuate_object F E p r g s).2.mem copy
            = match s.mem p with
              | HeapWord.displaced lr => HeapWord.displaced lr
              | HeapWord.neutral w =>
                HeapWord.neutral
                  (w.set_age
                    (min markWord.max_age ((w.age + (r.age + 1) % 2 ^ 32) % 2 ^ 32)))) := by
  subst hcopy
  rw [try_evacuate_object_allocated F E p r g s hc]
  generalize evac_allocate F E (F.size p) (decide (g = OLD_GENERATION) && r.is_young) g
    s.thread = A at hc ⊢
  have hu : ({ s with thread := A.thread } : State).fwd p = p := hunforwarded
  refine ⟨?_, ?_, ?_, ?_⟩
  · rw [evac_install_fst]
    exact if_pos hu
  · rw [evac_install_fwd]
    exact if_pos hu
  · intro i hi h0
    rw [evac_install_won _ _ _ _ _ _ _ _ _ hu]
    have hbase := copied_word p A.copy (F.size p) i { s with thread := A.thread } hi
    by_cases h1 : F.is_generational = true
    · cases g
      · by_cases h2 : F.is_aging_cycle = true
        · have hi0 : i ≠ 0 := by
            intro h
            have := h0 h
            simp [h1, h2] at this
          simp only [h1, h2, if_true]
          unfold increase_object_age
          split
          · simp only [try_update_forwardee_mem]
            exact hbase
          · simp only [try_update_forwardee_mem, hi0, Nat.add_right_eq_self, if_false]
            exact hbase
        · simp only [h1, h2, if_true, if_false, Bool.false_eq_true]
          rw [try_update_forwardee_mem]
          exact hbase
      · simp only [h1, if_true]
        show (try_update_forwardee p _ _).2.mem _ = _
        rw [try_update_forwardee_mem]
        exact hbase
    · simp only [h1, if_false, Bool.false_eq_true]
      rw [try_update_forwardee_mem]
      exact hbase
  · intro hmode hsz
    rw [evac_install_won _ _ _ _ _ _ _ _ _ hu]
    have hbase := copied_word p A.copy (F.size p) 0 { s with thread := A.thread } hsz
    simp only [Nat.add_zero] at hbase
    have hm : F.is_generational = true ∧ g = YOUNG_GENERATION ∧ F.is_aging_cycle = true := by
      simpa [and_assoc] using hmode
    obtain ⟨h1, hg, h2⟩ := hm
    subst hg
    simp only [h1, h2, if_true]
    unfold increase_object_age
    simp only [try_update_forwardee_mem]
    rw [hbase]
    cases hm : s.mem p <;> simp [hbase, hm]

/-- C3, at a concrete input: outside an aging cycle the worker's copy at 200 of the object at
100 wins, and its first word (the header) and its last word equal those of the object. -/
theorem evac_copy_words_witness :
    (try_evacuate_object generational_vm_no_aging exhausted 100 young_region YOUNG_GENERATION
        (heap_unforwarded worker)).1 = 200
      ∧ (try_evacuate_object generational_vm_no_aging exhausted 100 young_region
          YOUNG_GENERATION (heap_unforwarded worker)).2.fwd 100 = 200
      ∧ (try_evacuate_object generational_vm_no_aging exhausted 100 young_region
          YOUNG_GENERATION (heap_unforwarded worker)).2.mem (200 + 0)
          = (heap_unforwarded worker).mem (100 + 0)
      ∧ (try_evacuate_object generational_vm_no_aging exhausted 100 young_region
          YOUNG_GENERATION (heap_unforwarded worker)).2.mem (200 + 15)
          = (heap_unforwarded worker).mem (100 + 15) :=
  ⟨(evac_copy_words generational_vm_no_aging exhausted 100 young_region YOUNG_GENERATION
      (heap_unforwarded worker) 200 (by decide) (by decide) (by decide)).1,
   (evac_copy_words generational_vm_no_aging exhausted 100 young_region YOUNG_GENERATION
      (heap_unforwarded worker) 200 (by decide) (by decide) (by decide)).2.1,
   (evac_copy_words generational_vm_no_aging exhausted 100 young_region YOUNG_GENERATION
      (heap_unforwarded worker) 200 (by decide) (by decide) (by decide)).2.2.1 0 (by decide)
      (fun _ => by decide),
   (evac_copy_words generational_vm_no_aging exhausted 100 young_region YOUNG_GENERATION
      (heap_unforwarded worker) 200 (by decide) (by decide) (by decide)).2.2.1 15 (by decide)
      (fun h => absurd h (by decide))⟩

/-- C3 as stated fails: in a generational aging cycle the worker's copy of the object at 100
wins the compare-and-swap and is returned, yet its first word (the header, now of age 2)
differs from the first word of the object before the call (age 1). -/
theorem evac_copy_words_counterexample :
    (try_evacuate_object generational_vm exhausted 100 young_region YOUNG_GENERATION
        (heap_unforwarded worker)).1 = 200
      ∧ (try_evacuate_object generational_vm exhausted 100 young_region YOUNG_GENERATION
          (heap_unforwarded worker)).2.fwd 100 = 200
      ∧ (0 : Nat) < generational_vm.size 100
      ∧ (heap_unforwarded worker).mem (100 + 0) = HeapWord.neutral { age := 1, hash := 0 }
      ∧ (try_evacuate_object generational_vm exhausted 100 young_region YOUNG_GENERATION
          (heap_unforwarded worker)).2.mem (200 + 0) = HeapWord.neutral { age := 2, hash := 0 }
      ∧ (try_evacuate_object generational_vm exhausted 100 young_region YOUNG_GENERATION
          (heap_unforwarded worker)).2.mem (200 + 0) ≠ (heap_unforwarded worker).mem (100 + 0) := by
  refine ⟨by decide, by decide, by decide, by decide, by decide, by decide⟩

/-- C4, as amended: for every `try_evacuate_object` call whose copy is served by the bump
allocation of the buffer the thread holds on entry (the GCLAB for a young target, the PLAB
for an old target) and whose forwarding compare-and-swap loses, the call returns the
installed forwarding target and the thread's buffer, and so its allocation pointer, is after
the call what it was before the call. -/
theorem lab_allocation_round_trip (F : VM) (E : Allocators) (p : Nat)
    (r : ShenandoahHeapRegion) (g : ShenandoahRegionAffiliation) (s : State) (lab : PLAB)
    (htlab : F.UseTLAB = true)
    (hplab : g = OLD_GENERATION →
      F.ShenandoahUsePLAB = true
        ∧ ¬ (r.is_young = true ∧ s.thread.allow_plab_promotions = false))
    (hlab : local_buffer g s.thread = some lab)
    (hfast : (lab.allocate (F.size p)).1 ≠ 0)
    (hforwarded : s.fwd p ≠ p) (hother : s.fwd p ≠ lab.top) :
    (try_evacuate_object F E p r g s).1 = s.fwd p
      ∧ local_buffer g (try_evacuate_object F E p r g s).2.thread = some lab
      ∧ (local_buffer g (try_evacuate_object F E p r g s).2.thread).map PLAB.top
          = some lab.top := by
  have htop := PLAB.allocate_fst lab (F.size p) hfast
  have hoc : s.fwd p ≠ (lab.allocate (F.size p)).1 := by rw [htop]; exact hother
  have hret : ∀ (pr : Bool) (copy : Nat) (l : Bool) (s1 : State), s1.fwd = s.fwd →
      (evac_install F p r g (F.size p) pr copy l s1).1 = s.fwd p := by
    intro pr copy l s1 h1
    rw [evac_install_fst, h1]
    exact if_neg hforwarded
  have key : (try_evacuate_object F E p r g s).1 = s.fwd p
      ∧ local_buffer g (try_evacuate_object F E p r g s).2.thread = some lab := by
    cases g
    · have hfa := evac_allocate_gclab_fast F E (F.size p)
        (decide (YOUNG_GENERATION = OLD_GENERATION) && r.is_young) s.thread lab htlab hlab hfast
      have hc : (evac_allocate F E (F.size p)
          (decide (YOUNG_GENERATION = OLD_GENERATION) && r.is_young) YOUNG_GENERATION
          s.thread).copy ≠ 0 := by
        rw [hfa]
        exact hfast
      rw [try_evacuate_object_allocated F E p r YOUNG_GENERATION s hc, hfa]
      refine ⟨hret _ _ _ _ rfl, ?_⟩
      dsimp only
      rw [evac_install_lost_thread_of _ _ _ _ _ _ _ _ _ _ hforwarded hoc]
      simp [local_buffer, PLAB.allocate_undo lab (F.size p) _ hfast]
    · obtain ⟨hu, hg⟩ := hplab rfl
      have hgate : ¬ ((decide (OLD_GENERATION = OLD_GENERATION) && r.is_young) = true
          ∧ s.thread.allow_plab_promotions = false) := by
        intro h
        apply hg
        refine ⟨?_, h.2⟩
        simpa using h.1
      have hfa := evac_allocate_plab_fast F E (F.size p)
        (decide (OLD_GENERATION = OLD_GENERATION) && r.is_young) s.thread lab htlab hu hgate
        hlab hfast
      have hc : (evac_allocate F E (F.size p)
          (decide (OLD_GENERATION = OLD_GENERATION) && r.is_young) OLD_GENERATION
          s.thread).copy ≠ 0 := by
        rw [hfa]
        exact hfast
      rw [try_evacuate_object_allocated F E p r OLD_GENERATION s hc, hfa]
      refine ⟨hret _ _ _ _ rfl, ?_⟩
      dsimp only
      rw [evac_install_lost_thread_of _ _ _ _ _ _ _ _ _ _ hforwarded hoc]
      cases hy : r.is_young <;>
        simp [local_buffer, PLAB.allocate_undo lab (F.size p) _ hfast,
          add_to_plab_promoted, add_to_plab_evacuated, subtract_from_plab_promoted,
          subtract_from_plab_evacuated, Thread.log]
  refine ⟨key.1, key.2, ?_⟩
  rw [key.2]
  rfl

/-- C4, at the scenario of the specification: the object at 100 has 16 words, another thread
has already installed its copy at 900, and the worker's GCLAB is the 64-word buffer at 200.
The worker returns 900 and its allocation pointer is back at 200. -/
theorem lab_allocation_round_trip_witness :
    (try_evacuate_object generational_vm exhausted 100 young_region YOUNG_GENERATION
        (heap_forwarded worker)).1 = 900
      ∧ (try_evacuate_object generational_vm exhausted 100 young_region YOUNG_GENERATION
          (heap_forwarded worker)).2.thread.gclab = some { top := 200, end_ := 264 }
      ∧ ((try_evacuate_object generational_vm exhausted 100 young_region YOUNG_GENERATION
            (heap_forwarded worker)).1 = (heap_forwarded worker).fwd 100
          ∧ local_buffer YOUNG_GENERATION
              (try_evacuate_object generational_vm exhausted 100 young_region YOUNG_GENERATION
                (heap_forwarded worker)).2.thread = some { top := 200, end_ := 264 }
          ∧ (local_buffer YOUNG_GENERATION
              (try_evacuate_object generational_vm exhausted 100 young_region YOUNG_GENERATION
                (heap_forwarded worker)).2.thread).map PLAB.top = some 200) :=
  ⟨by decide, by decide,
    lab_allocation_round_trip generational_vm exhausted 100 young_region YOUNG_GENERATION
      (heap_forwarded worker) { top := 200, end_ := 264 } (by decide) (by decide) (by decide)
      (by decide) (by decide) (by decide)⟩

/-- C4 as stated fails: the worker's GCLAB has 8 words left, so the 16-word copy comes from
the slow path, which replaces the buffer by a fresh one at 500. The copy is obtained from the
thread's buffer (`alloc_from_lab`), the compare-and-swap loses, and after the call the
allocation pointer is 500, not its position 256 before the call. -/
theorem lab_allocation_round_trip_counterexample :
    (evac_allocate generational_vm (refilling 500 2048) 16 false YOUNG_GENERATION
        worker_low).alloc_from_lab = true
      ∧ (evac_allocate generational_vm (refilling 500 2048) 16 false YOUNG_GENERATION
          worker_low).copy = 500
      ∧ (try_evacuate_object generational_vm (refilling 500 2048) 100 young_region
          YOUNG_GENERATION (heap_forwarded worker_low)).1 = 900
      ∧ (local_buffer YOUNG_GENERATION (heap_forwarded worker_low).thread).map PLAB.top
          = some 256
      ∧ (local_buffer YOUNG_GENERATION
          (try_evacuate_object generational_vm (refilling 500 2048) 100 young_region
            YOUNG_GENERATION (heap_forwarded worker_low)).2.thread).map PLAB.top = some 500 := by
  refine ⟨by decide, by decide, by decide, by decide, by decide⟩

/-- C6: for every thread whose promotion permission is unset, every size and every PLAB
state (no PLAB included), `allocate_from_plab` with `is_promotion = true` returns `NULL` and
leaves the whole thread unchanged: the PLAB and its allocation pointer, the promoted and the
evacuated totals, and the trace, so that no buffer allocation and no slow path is attempted. -/
theorem allocate_from_plab_gated (F : VM) (E : Allocators) (size : Nat) (t : Thread)
    (hgate : t.allow_plab_promotions = false) :
    allocate_from_plab F E size true t = (0, t) := by
  unfold allocate_from_plab
  simp [hgate]

/-- C6, at a concrete input: a worker with room in its PLAB and a slow path that could refill
it, but without permission to promote. -/
theorem allocate_from_plab_gated_witness :
    ({ worker with allow_plab_promotions := false } : Thread).allow_plab_promotions = false
      ∧ allocate_from_plab generational_vm (refilling 500 2048) 16 true
          { worker with allow_plab_promotions := false }
        = (0, { worker with allow_plab_promotions := false }) :=
  ⟨rfl, allocate_from_plab_gated generational_vm (refilling 500 2048) 16
    { worker with allow_plab_promotions := false } rfl⟩

/-- C8: for each of the three flag values and both values of `sts_active`, of the
suspendible-workers option and of the yield request, `check_cancelled_gc_and_yield` run
without interference returns `true` exactly when the flag is `CANCELLED` on entry (it agrees
with `cancelled_gc`), leaves the flag at its value on entry, and when the flag is `CANCELLED`
leaves the heap and its trace untouched: no yield and no store. -/
theorem check_cancelled_gc_and_yield_sequential (F : VM) (sts_active should_yield : Bool)
    (h : CancelHeap) :
    ((check_cancelled_gc_and_yield F sts_active should_yield h).1 = true
        ↔ h.cancelled_gc_flag = CANCELLED)
      ∧ (check_cancelled_gc_and_yield F sts_active should_yield h).1 = cancelled_gc h
      ∧ (check_cancelled_gc_and_yield F sts_active should_yield h).2.cancelled_gc_flag
          = h.cancelled_gc_flag
      ∧ (h.cancelled_gc_flag = CANCELLED →
          (check_cancelled_gc_and_yield F sts_active should_yield h).2 = h) := by
  obtain ⟨flag, time, trace⟩ := h
  unfold check_cancelled_gc_and_yield
  cases sts_active <;> cases hs : F.ShenandoahSuspendibleWorkers <;> cases should_yield <;>
    cases flag <;>
    simp [cancelled_gc, CancelHeap.cmpxchg, CancelHeap.set, CancelHeap.yield]

/-- C7, as amended: in the step relation of external cancellation requests, worker steps of
`check_cancelled_gc_and_yield` and `clear_cancelled_gc`, a flag that is `CANCELLED` leaves
`CANCELLED` only through a `clear_cancelled_gc` step or through the restoring store of a
worker whose compare-and-swap saw `CANCELLABLE` before the request; when no worker has such a
restore pending, the flag stays `CANCELLED` along every run without a `clear_cancelled_gc`
step. -/
theorem cancelled_until_clear (F : VM) (c : Config)
    (hflag : c.heap.cancelled_gc_flag = CANCELLED) :
    (∀ l, (step F c l).heap.cancelled_gc_flag ≠ CANCELLED →
        l.is_clear = true
          ∨ ∃ i sts_active should_yield,
              l = Step.worker i sts_active should_yield
                ∧ c.pc i = WorkerPc.yielded CANCELLABLE)
      ∧ ((∀ i, pending_restore (c.pc i) = false) →
          ∀ steps, (∀ l ∈ steps, l.is_clear = false) →
            (run F steps c).heap.cancelled_gc_flag = CANCELLED) := by
  refine ⟨?_, fun hpending steps hsteps => run_keeps_cancelled F steps c hflag hpending hsteps⟩
  intro l hl
  cases l with
  | cancel => exact absurd rfl hl
  | clear b => exact Or.inl rfl
  | worker i sts_active should_yield =>
    right
    refine ⟨i, sts_active, should_yield, rfl, ?_⟩
    simp only [step, worker_step] at hl
    cases hpc : c.pc i with
    | idle =>
      rw [hpc] at hl
      simp only [CancelHeap.cmpxchg, hflag] at hl
      simp at hl
      exact absurd hflag hl
    | claimed prev =>
      rw [hpc] at hl
      simp only [] at hl
      first
        | exact absurd hflag hl
        | (split at hl <;> exact absurd hflag hl)
    | yielded prev =>
      rw [hpc] at hl
      simp only [] at hl
      cases prev with
      | CANCELLABLE => rfl
      | CANCELLED => simp at hl; exact absurd hflag hl
      | NOT_CANCELLED => simp at hl; exact absurd hflag hl

/-- C7, at a concrete input: after a cancellation that met no worker inside the check, two
workers run the check, one of them completely, and a second request arrives; the flag is
still `CANCELLED`. -/
theorem cancelled_until_clear_witness :
    config_cancelled.heap.cancelled_gc_flag = CANCELLED
      ∧ (run generational_vm
          [Step.worker 0 true true, Step.worker 1 true false, Step.cancel,
            Step.worker 0 true true, Step.worker 0 true true, Step.worker 2 false false]
          config_cancelled).heap.cancelled_gc_flag = CANCELLED :=
  ⟨rfl, (cancelled_until_clear generational_vm config_cancelled rfl).2 (fun _ => rfl)
    [Step.worker 0 true true, Step.worker 1 true false, Step.cancel,
      Step.worker 0 true true, Step.worker 0 true true, Step.worker 2 false false]
    (by decide)⟩

/-- C7 as stated fails: worker 0 claims `NOT_CANCELLED` from `CANCELLABLE`, an external
request then sets the flag to `CANCELLED`, and the worker's restoring store puts the flag back
to `CANCELLABLE`, although no step of the run is a `clear_cancelled_gc` step. -/
theorem cancelled_until_clear_counterexample :
    (run generational_vm [Step.worker 0 true false, Step.cancel]
        config_idle).heap.cancelled_gc_flag = CANCELLED
      ∧ (∀ l ∈ [Step.worker 0 true false, Step.worker 0 true false], l.is_clear = false)
      ∧ (run generational_vm [Step.worker 0 true false, Step.worker 0 true false]
          (run generational_vm [Step.worker 0 true false, Step.cancel]
            config_idle)).heap.cancelled_gc_flag = CANCELLABLE := by
  refine ⟨by decide, by decide, by decide⟩

/-- C5, the failing input evaluated: an old-to-old evacuation of the 16-word object at 100 by
a worker whose PLAB has 8 words left. The first `allocate_from_plab` fails in the fast and in
the slow path and still adds 128 bytes to the evacuated total; the retry after shrinking the
desired PLAB size gets the copy at 500 from the refilled PLAB and adds 128 bytes again; the
compare-and-swap loses (900 is installed) and 128 bytes are subtracted once. The evacuated
total is 128 after the call and was 0 before it. -/
theorem plab_retry_loss_totals :
    (allocate_from_plab generational_vm (refilling 500 64) 16 false worker_low).1 = 0
      ∧ (evac_allocate generational_vm (refilling 500 64) 16 false OLD_GENERATION
          worker_low).copy = 500
      ∧ (evac_allocate generational_vm (refilling 500 64) 16 false OLD_GENERATION
          worker_low).alloc_from_lab = true
      ∧ (try_evacuate_object generational_vm (refilling 500 64) 100 old_region OLD_GENERATION
          (heap_forwarded worker_low)).1 = 900
      ∧ (heap_forwarded worker_low).thread.plab_evacuated = 0
      ∧ (try_evacuate_object generational_vm (refilling 500 64) 100 old_region OLD_GENERATION
          (heap_forwarded worker_low)).2.thread.plab_evacuated = 128
      ∧ (try_evacuate_object generational_vm (refilling 500 64) 100 old_region OLD_GENERATION
          (heap_forwarded worker_low)).2.thread.plab_promoted = 0 := by
  refine ⟨by decide, by decide, by decide, by decide, by decide, by decide, by decide⟩

/-- C9, as amended: when every allocation attempt of a `try_evacuate_object` call fails, then
unless the target is the old generation and the source region is young, the call notifies
the controller (`handle_alloc_failure_evac` with the object's size) and then invokes the
out-of-memory-during-evacuation handler before it returns the resolved forwarding target;
when the target is old and the source region is young, it signals promotion failure only and
returns `NULL`. -/
theorem alloc_failure_notified (F : VM) (E : Allocators) (p : Nat) (r : ShenandoahHeapRegion)
    (g : ShenandoahRegionAffiliation) (s : State)
    (hfail : (evac_allocate F E (F.size p) (decide (g = OLD_GENERATION) && r.is_young) g
                s.thread).copy = 0) :
    (g = OLD_GENERATION ∧ r.is_young = true →
        (try_evacuate_object F E p r g s).1 = 0
          ∧ (try_evacuate_object F E p r g s).2.thread.trace
              = (evac_allocate F E (F.size p) (decide (g = OLD_GENERATION) && r.is_young) g
                  s.thread).thread.trace ++ [Event.handle_promotion_failure]
          ∧ (try_evacuate_object F E p r g s).2.thread.oom_during_evac
              = (evac_allocate F E (F.size p) (decide (g = OLD_GENERATION) && r.is_young) g
                  s.thread).thread.oom_during_evac)
      ∧ (¬ (g = OLD_GENERATION ∧ r.is_young = true) →
          (try_evacuate_object F E p r g s).1 = resolve_forwarded s p
            ∧ (try_evacuate_object F E p r g s).2.thread.trace
                = (evac_allocate F E (F.size p) (decide (g = OLD_GENERATION) && r.is_young) g
                    s.thread).thread.trace
                  ++ (if g = OLD_GENERATION then [Event.handle_old_evacuation_failure] else [])
                  ++ [Event.handle_alloc_failure_evac (F.size p),
                      Event.handle_out_of_memory_during_evacuation]
            ∧ (try_evacuate_object F E p r g s).2.thread.oom_during_evac = true) := by
  rw [try_evacuate_object_failed F E p r g s hfail]
  generalize (evac_allocate F E (F.size p) (decide (g = OLD_GENERATION) && r.is_young) g
    s.thread).thread = t
  unfold evac_alloc_failure
  refine ⟨?_, ?_⟩
  · intro h
    rw [if_pos h]
    exact ⟨rfl, rfl, rfl⟩
  · intro h
    rw [if_neg h]
    by_cases hg : g = OLD_GENERATION <;>
      simp [hg, handle_out_of_memory_during_evacuation, State.log, Thread.log,
        resolve_forwarded]

/-- C9, at a concrete input: a young-to-young evacuation by a worker without buffers meets
exhausted allocators; the controller is notified and the handler runs. -/
theorem alloc_failure_notified_witness :
    (try_evacuate_object generational_vm exhausted 100 young_region YOUNG_GENERATION
        (heap_unforwarded worker_bare)).2.thread.trace
      = [Event.allocate_memory 16 YOUNG_GENERATION false, Event.handle_alloc_failure_evac 16,
          Event.handle_out_of_memory_during_evacuation]
      ∧ (try_evacuate_object generational_vm exhausted 100 young_region YOUNG_GENERATION
          (heap_unforwarded worker_bare)).2.thread.oom_during_evac = true :=
  ⟨((alloc_failure_notified generational_vm exhausted 100 young_region YOUNG_GENERATION
      (heap_unforwarded worker_bare) (by decide)).2 (by decide)).2.1,
   ((alloc_failure_notified generational_vm exhausted 100 young_region YOUNG_GENERATION
      (heap_unforwarded worker_bare) (by decide)).2 (by decide)).2.2⟩

/-- C9 as stated fails: a promotion (old target, young source region) by a worker without
buffers meets exhausted allocators. Every allocation attempt fails, yet the call only signals
promotion failure and returns `NULL`: the controller is not notified and the handler is not
invoked. -/
theorem alloc_failure_notified_counterexample :
    (evac_allocate generational_vm exhausted 16 true OLD_GENERATION worker_bare).copy = 0
      ∧ (try_evacuate_object generational_vm exhausted 100 young_region OLD_GENERATION
          (heap_unforwarded worker_bare)).1 = 0
      ∧ (try_evacuate_object generational_vm exhausted 100 young_region OLD_GENERATION
          (heap_unforwarded worker_bare)).2.thread.trace
          = [Event.allocate_memory 16 OLD_GENERATION true, Event.handle_promotion_failure]
      ∧ Event.handle_alloc_failure_evac 16
          ∉ (try_evacuate_object generational_vm exhausted 100 young_region OLD_GENERATION
              (heap_unforwarded worker_bare)).2.thread.trace
      ∧ Event.handle_out_of_memory_during_evacuation
          ∉ (try_evacuate_object generational_vm exhausted 100 young_region OLD_GENERATION
              (heap_unforwarded worker_bare)).2.thread.trace
      ∧ (try_evacuate_object generational_vm exhausted 100 young_region OLD_GENERATION
          (heap_unforwarded worker_bare)).2.thread.oom_during_evac = false := by
  refine ⟨by decide, by decide, by decide, by decide, by decide, by decide⟩

/-- C10: for every object in an old (not young) region whose evacuation targets the old
generation and for which every allocation attempt fails, the events that
`try_evacuate_object` adds to the trace are allocator calls followed by exactly: the
old-evacuation-failure signal, the controller notification and the
out-of-memory-during-evacuation handler. So old-evacuation failure is signalled once,
promotion failure is not signalled, and there is no copy and no forwarding compare-and-swap;
memory and forwarding slots are unchanged, and the call returns the forwarding state that the
object had before the call, the object itself when it was never forwarded. -/
theorem old_evacuation_failure (F : VM) (E : Allocators) (p : Nat) (r : ShenandoahHeapRegion)
    (s : State) (hold : r.is_young = false)
    (hfail : (evac_allocate F E (F.size p) (decide (OLD_GENERATION = OLD_GENERATION) && r.is_young)
                OLD_GENERATION s.thread).copy = 0) :
    ∃ evs tail,
      (∀ e ∈ evs, e.is_allocation = true)
        ∧ tail = [Event.handle_old_evacuation_failure, Event.handle_alloc_failure_evac (F.size p),
                  Event.handle_out_of_memory_during_evacuation]
        ∧ (try_evacuate_object F E p r OLD_GENERATION s).2.thread.trace
            = s.thread.trace ++ (evs ++ tail)
        ∧ (evs ++ tail).count Event.handle_old_evacuation_failure = 1
        ∧ Event.handle_promotion_failure ∉ evs ++ tail
        ∧ Event.handle_out_of_memory_during_evacuation ∈ evs ++ tail
        ∧ (∀ e ∈ evs ++ tail, e.is_copy_or_cas = false)
        ∧ (try_evacuate_object F E p r OLD_GENERATION s).2.mem = s.mem
        ∧ (try_evacuate_object F E p r OLD_GENERATION s).2.fwd = s.fwd
        ∧ (try_evacuate_object F E p r OLD_GENERATION s).2.thread.oom_during_evac = true
        ∧ (try_evacuate_object F E p r OLD_GENERATION s).1 = resolve_forwarded s p
        ∧ (s.fwd p = p → (try_evacuate_object F E p r OLD_GENERATION s).1 = p) := by
  obtain ⟨evs, htrace, hevs⟩ := evac_allocate_trace F E (F.size p)
    (decide (OLD_GENERATION = OLD_GENERATION) && r.is_young) OLD_GENERATION s.thread
  have hnot : ¬ (OLD_GENERATION = OLD_GENERATION ∧ r.is_young = true) := by
    simp [hold]
  have ha := evac_alloc_failure_old p r (F.size p)
    { s with thread := (evac_allocate F E (F.size p)
        (decide (OLD_GENERATION = OLD_GENERATION) && r.is_young) OLD_GENERATION
        s.thread).thread } hold
  rw [← try_evacuate_object_failed F E p r OLD_GENERATION s hfail] at ha
  have hn : (try_evacuate_object F E p r OLD_GENERATION s).1 = resolve_forwarded s p
      ∧ (try_evacuate_object F E p r OLD_GENERATION s).2.thread.trace
          = (evac_allocate F E (F.size p)
              (decide (OLD_GENERATION = OLD_GENERATION) && r.is_young) OLD_GENERATION
              s.thread).thread.trace
            ++ [Event.handle_old_evacuation_failure, Event.handle_alloc_failure_evac (F.size p),
                Event.handle_out_of_memory_during_evacuation]
      ∧ (try_evacuate_object F E p r OLD_GENERATION s).2.thread.oom_during_evac = true :=
    ⟨ha.1, ha.2.1, ha.2.2.1⟩
  have hfwd : (try_evacuate_object F E p r OLD_GENERATION s).2.fwd = s.fwd := by
    rw [try_evacuate_object_failed F E p r OLD_GENERATION s hfail, evac_alloc_failure_fwd]
  have hmem : (try_evacuate_object F E p r OLD_GENERATION s).2.mem = s.mem := ha.2.2.2
  have hcount : evs.count Event.handle_old_evacuation_failure = 0 := by
    apply List.count_eq_zero_of_not_mem
    intro h
    have := hevs _ h
    simp [Event.is_allocation] at this
  refine ⟨evs, _, hevs, rfl, ?_, ?_, ?_, ?_, ?_, hmem, hfwd, hn.2.2, hn.1, ?_⟩
  · rw [hn.2.1, htrace]
    simp
  · rw [List.count_append, hcount]
    simp [List.count_cons]
  · intro h
    rcases List.mem_append.mp h with h | h
    · have := hevs _ h
      simp [Event.is_allocation] at this
    · simp at h
  · simp
  · intro e he
    rcases List.mem_append.mp he with h | h
    · have := hevs _ h
      cases e <;> simp [Event.is_allocation] at this <;> rfl
    · simp at h
      rcases h with h | h | h <;> rw [h] <;> rfl
  · intro hself
    rw [hn.1]
    unfold resolve_forwarded
    split
    · rename_i h0
      exact h0.symm
    · exact hself

/-- C10, at the scenario of the specification: the shared allocator is exhausted for the
old generation, the source region is old, the object at 100 was never forwarded and the
worker has no buffers. -/
theorem old_evacuation_failure_witness :
    (try_evacuate_object generational_vm exhausted 100 old_region OLD_GENERATION
        (heap_unforwarded worker_bare)).1 = 100
      ∧ (try_evacuate_object generational_vm exhausted 100 old_region OLD_GENERATION
          (heap_unforwarded worker_bare)).2.thread.trace
          = [Event.allocate_memory 16 OLD_GENERATION false, Event.handle_old_evacuation_failure,
              Event.handle_alloc_failure_evac 16, Event.handle_out_of_memory_during_evacuation]
      ∧ ∃ evs tail,
          (∀ e ∈ evs, e.is_allocation = true)
            ∧ tail = [Event.handle_old_evacuation_failure,
                      Event.handle_alloc_failure_evac (generational_vm.size 100),
                      Event.handle_out_of_memory_during_evacuation]
            ∧ (try_evacuate_object generational_vm exhausted 100 old_region OLD_GENERATION
                (heap_unforwarded worker_bare)).2.thread.trace
                = (heap_unforwarded worker_bare).thread.trace ++ (evs ++ tail)
            ∧ (evs ++ tail).count Event.handle_old_evacuation_failure = 1
            ∧ Event.handle_promotion_failure ∉ evs ++ tail
            ∧ Event.handle_out_of_memory_during_evacuation ∈ evs ++ tail
            ∧ (∀ e ∈ evs ++ tail, e.is_copy_or_cas = false)
            ∧ (try_evacuate_object generational_vm exhausted 100 old_region OLD_GENERATION
                (heap_unforwarded worker_bare)).2.mem = (heap_unforwarded worker_bare).mem
            ∧ (try_evacuate_object generational_vm exhausted 100 old_region OLD_GENERATION
                (heap_unforwarded worker_bare)).2.fwd = (heap_unforwarded worker_bare).fwd
            ∧ (try_evacuate_object generational_vm exhausted 100 old_region OLD_GENERATION
                (heap_unforwarded worker_bare)).2.thread.oom_during_evac = true
            ∧ (try_evacuate_object generational_vm exhausted 100 old_region OLD_GENERATION
                (heap_unforwarded worker_bare)).1
                = resolve_forwarded (heap_unforwarded worker_bare) 100
            ∧ ((heap_unforwarded worker_bare).fwd 100 = 100 →
                (try_evacuate_object generational_vm exhausted 100 old_region OLD_GENERATION
                  (heap_unforwarded worker_bare)).1 = 100) :=
  ⟨by decide, by decide,
    old_evacuation_failure generational_vm exhausted 100 old_region
      (heap_unforwarded worker_bare) (by decide) (by decide)⟩

/-- C11: for every reference slot `p`, of either slot type: if the slot holds null or a
reference to an object outside the collection set, `update_with_forwarded` leaves the heap
as it is (the slot is unchanged and no store is performed); otherwise it performs exactly one
store and the slot then holds the resolved forwarding target of the object it referred to
(encoded when the slot is compressed). In both cases every other slot and every forwarding
slot is unchanged. -/
theorem update_with_forwarded_slot (T : SlotType) (V : RefEnv) (p : Nat) (h : RefHeap) :
    ((h.slot p = 0 ∨ V.in_collection_set (T.decode_not_null V.oops (h.slot p)) = false) →
        (update_with_forwarded T V p h).slot = h.slot
          ∧ (update_with_forwarded T V p h).trace = h.trace)
      ∧ (h.slot p ≠ 0 → V.in_collection_set (T.decode_not_null V.oops (h.slot p)) = true →
          (update_with_forwarded T V p h).slot p
              = T.encode_not_null V.oops (h.fwd (T.decode_not_null V.oops (h.slot p)))
            ∧ (update_with_forwarded T V p h).trace
                = h.trace ++ [RefEvent.oop_store p
                    (T.encode_not_null V.oops (h.fwd (T.decode_not_null V.oops (h.slot p))))])
      ∧ (∀ q, q ≠ p → (update_with_forwarded T V p h).slot q = h.slot q)
      ∧ (update_with_forwarded T V p h).fwd = h.fwd := by
  unfold update_with_forwarded
  refine ⟨?_, ?_, ?_, ?_⟩
  · intro hc
    rcases hc with h0 | hout
    · simp [h0]
    · simp [hout]
  · intro h0 hin
    cases T <;>
      simp [h0, hin, oop_store, resolve_forwarded_not_null, SlotType.encode_not_null]
  · intro q hq
    by_cases h0 : h.slot p = 0
    · simp [h0]
    · by_cases hin : V.in_collection_set (T.decode_not_null V.oops (h.slot p)) = true
      · cases T <;> simp [h0, hin, oop_store, hq]
      · simp [h0, hin]
  · by_cases h0 : h.slot p = 0
    · simp [h0]
    · by_cases hin : V.in_collection_set (T.decode_not_null V.oops (h.slot p)) = true
      · cases T <;> simp [h0, hin, oop_store]
      · simp [h0, hin]

/-- C12: for every reference slot `p`, of either slot type, and every write `other` that
another thread makes to the slot between the load and the compare-and-swap of
`conc_update_with_forwarded`: if the loaded value is non-null and refers to a collection-set
object, the pass attempts exactly one compare-and-swap, and the slot ends holding the
resolved forwarding target (encoded when the slot is compressed) if it still held the loaded
value at the compare-and-swap, and the other writer's value otherwise; if the loaded value is
null or outside the collection set, the pass writes nothing. For a compressed slot this uses
that encoding the decoded loaded value gives the loaded value back. -/
theorem conc_update_with_forwarded_slot (T : SlotType) (V : RefEnv) (p : Nat)
    (other : Option Nat) (h : RefHeap)
    (hcodec : T = SlotType.narrowOop → h.slot p ≠ 0 →
      V.oops.encode (V.oops.decode_not_null (h.slot p)) = h.slot p) :
    (h.slot p ≠ 0 → V.in_collection_set (T.decode_not_null V.oops (h.slot p)) = true →
        (conc_update_with_forwarded T V p other h).trace
            = h.trace ++ [RefEvent.cmpxchg p
                (T.encode V.oops (T.decode_not_null V.oops (h.slot p)))
                (T.encode V.oops (h.fwd (T.decode_not_null V.oops (h.slot p))))]
          ∧ ((other_write p other h).slot p = h.slot p →
              (conc_update_with_forwarded T V p other h).slot p
                = T.encode V.oops (h.fwd (T.decode_not_null V.oops (h.slot p))))
          ∧ ((other_write p other h).slot p ≠ h.slot p →
              (conc_update_with_forwarded T V p other h).slot p
                = (other_write p other h).slot p))
      ∧ ((h.slot p = 0 ∨ V.in_collection_set (T.decode_not_null V.oops (h.slot p)) = false) →
          conc_update_with_forwarded T V p other h = other_write p other h
            ∧ (conc_update_with_forwarded T V p other h).trace = h.trace)
      ∧ (∀ q, q ≠ p → (conc_update_with_forwarded T V p other h).slot q = h.slot q)
      ∧ (conc_update_with_forwarded T V p other h).fwd = h.fwd := by
  have htrace : (other_write p other h).trace = h.trace := by
    cases other <;> rfl
  have hfwd : (other_write p other h).fwd = h.fwd := by
    cases other <;> rfl
  have hothers : ∀ q, q ≠ p → (other_write p other h).slot q = h.slot q := by
    intro q hq
    cases other <;> simp [other_write, hq]
  unfold conc_update_with_forwarded
  refine ⟨?_, ?_, ?_, ?_⟩
  · intro h0 hin
    cases T with
    | oop =>
      simp only [h0, hin, ne_eq, not_false_eq_true, if_true]
      refine ⟨by simp [cas_oop, cmpxchg, htrace, SlotType.encode, SlotType.decode_not_null,
        resolve_forwarded_not_null], ?_, ?_⟩
      · intro hsame
        simp [cas_oop, cmpxchg, hsame, SlotType.decode_not_null, SlotType.encode,
          resolve_forwarded_not_null]
      · intro hdiff
        simp [cas_oop, cmpxchg, hdiff, SlotType.decode_not_null]
    | narrowOop =>
      have hc := hcodec rfl h0
      simp only [h0, hin, ne_eq, not_false_eq_true, if_true]
      refine ⟨by simp [cas_oop_narrow, cmpxchg, htrace, SlotType.encode,
        SlotType.decode_not_null, resolve_forwarded_not_null], ?_, ?_⟩
      · intro hsame
        simp [cas_oop_narrow, cmpxchg, hsame, SlotType.decode_not_null, SlotType.encode,
          resolve_forwarded_not_null, hc]
      · intro hdiff
        simp [cas_oop_narrow, cmpxchg, hdiff, SlotType.decode_not_null, hc]
  · intro hc
    rcases hc with h0 | hout
    · simp [h0, htrace]
    · simp [hout, htrace]
  · intro q hq
    by_cases h0 : h.slot p = 0
    · simp [h0, hothers q hq]
    · by_cases hin : V.in_collection_set (T.decode_not_null V.oops (h.slot p)) = true
      · cases T <;> simp [h0, hin, cas_oop, cas_oop_narrow, cmpxchg, hq, hothers q hq]
      · simp [h0, hin, hothers q hq]
  · by_cases h0 : h.slot p = 0
    · simp [h0, hfwd]
    · by_cases hin : V.in_collection_set (T.decode_not_null V.oops (h.slot p)) = true
      · cases T <;> simp [h0, hin, cas_oop, cas_oop_narrow, cmpxchg, hfwd]
      · simp [h0, hin, hfwd]

/-- C17: for every heap with `base + num_regions * 2 ^ shift <= 2 ^ w` and every `w`-bit
address `a`, the index computed by `heap_region_index_containing` is below `num_regions`
exactly when `base <= a < base + num_regions * 2 ^ shift`; in that case it is the unique `i`
with `base + i * 2 ^ shift <= a < base + (i + 1) * 2 ^ shift`, and `heap_region_containing`
returns region `i` of the table, not the out-of-bounds `NULL`. -/
theorem heap_region_index_containing_bounds (H : HeapLayout) (a : Nat)
    (hfit : H.base + H.num_regions * 2 ^ H.region_size_bytes_shift ≤ 2 ^ H.w)
    (ha : a < 2 ^ H.w) :
    (heap_region_index_containing H a < H.num_regions
        ↔ H.base ≤ a ∧ a < H.base + H.num_regions * 2 ^ H.region_size_bytes_shift)
      ∧ (H.base ≤ a → a < H.base + H.num_regions * 2 ^ H.region_size_bytes_shift →
          H.base + heap_region_index_containing H a * 2 ^ H.region_size_bytes_shift ≤ a
            ∧ a < H.base
                  + (heap_region_index_containing H a + 1) * 2 ^ H.region_size_bytes_shift
            ∧ (∀ i, H.base + i * 2 ^ H.region_size_bytes_shift ≤ a →
                a < H.base + (i + 1) * 2 ^ H.region_size_bytes_shift →
                i = heap_region_index_containing H a)
            ∧ heap_region_containing H a
                = some (H.regions (heap_region_index_containing H a))) := by
  have hS : 0 < 2 ^ H.region_size_bytes_shift := Nat.two_pow_pos _
  have hb : H.base ≤ 2 ^ H.w := Nat.le_trans (Nat.le_add_right _ _) hfit
  have hidx : heap_region_index_containing H a
      = (if H.base ≤ a then a - H.base else a + 2 ^ H.w - H.base)
          / 2 ^ H.region_size_bytes_shift := by
    unfold heap_region_index_containing
    rw [uintptr_sub a H.base (2 ^ H.w) ha hb]
  generalize 2 ^ H.region_size_bytes_shift = S at hS hfit hidx ⊢
  generalize 2 ^ H.w = W at ha hb hfit hidx
  have hiff : heap_region_index_containing H a < H.num_regions
      ↔ H.base ≤ a ∧ a < H.base + H.num_regions * S := by
    rw [hidx]
    by_cases hle : H.base ≤ a
    · rw [if_pos hle, (region_quotient (a - H.base) S H.num_regions hS).1]
      constructor
      · intro h
        exact ⟨hle, by omega⟩
      · intro h
        omega
    · rw [if_neg hle, (region_quotient (a + W - H.base) S H.num_regions hS).1]
      constructor
      · intro h
        omega
      · intro h
        exact absurd h.1 hle
  refine ⟨hiff, ?_⟩
  intro hle hlt
  have hin := hiff.mpr ⟨hle, hlt⟩
  have hq := region_quotient (a - H.base) S H.num_regions hS
  have hidx2 : heap_region_index_containing H a = (a - H.base) / S := by
    rw [hidx, if_pos hle]
  refine ⟨?_, ?_, ?_, ?_⟩
  · rw [hidx2]
    have := hq.2.1
    omega
  · rw [hidx2]
    have := hq.2.2.1
    omega
  · intro i h1 h2
    rw [hidx2]
    apply hq.2.2.2 i
    · omega
    · omega
  · unfold heap_region_containing get_region
    rw [if_pos hin]

/-- C12, at a concrete input: the compressed slot at 10 refers to the collection-set object
at 40, which is forwarded to 80. Undisturbed, the pass leaves the encoding 10 of 80 in the
slot; when another thread writes 7 in between, the slot keeps 7. -/
theorem conc_update_with_forwarded_slot_witness :
    (conc_update_with_forwarded SlotType.narrowOop update_env 10 none ref_heap).slot 10 = 10
      ∧ (conc_update_with_forwarded SlotType.narrowOop update_env 10 (some 7) ref_heap).slot 10
          = 7
      ∧ (conc_update_with_forwarded SlotType.narrowOop update_env 10 (some 7) ref_heap).trace
          = [RefEvent.cmpxchg 10 5 10] :=
  ⟨((conc_update_with_forwarded_slot SlotType.narrowOop update_env 10 none ref_heap
      (fun _ _ => by decide)).1 (by decide) (by decide)).2.1 (by decide),
   ((conc_update_with_forwarded_slot SlotType.narrowOop update_env 10 (some 7) ref_heap
      (fun _ _ => by decide)).1 (by decide) (by decide)).2.2 (by decide),
   ((conc_update_with_forwarded_slot SlotType.narrowOop update_env 10 (some 7) ref_heap
      (fun _ _ => by decide)).1 (by decide) (by decide)).1⟩

/-- C17, at a concrete input: in the heap of four 1024-byte regions at 4096 the address 6149
lies in region 2, and the address 100 below the heap gets an index out of bounds. -/
theorem heap_region_index_containing_bounds_witness :
    heap_region_index_containing small_layout 6149 = 2
      ∧ heap_region_containing small_layout 6149 = some 102
      ∧ ¬ heap_region_index_containing small_layout 100 < small_layout.num_regions
      ∧ heap_region_containing small_layout 6149
          = some (small_layout.regions (heap_region_index_containing small_layout 6149)) :=
  ⟨by decide, by decide,
    fun hlt => absurd
      ((heap_region_index_containing_bounds small_layout 100 (by decide) (by decide)).1.mp
        hlt).1 (by decide),
    ((heap_region_index_containing_bounds small_layout 6149 (by decide) (by decide)).2
      (by decide) (by decide)).2.2.2⟩

/-- C15, the failing input evaluated: the worker's PLAB has 8 words left and the slow path
is exhausted, so `allocate_from_plab` for 16 words returns `NULL`; the evacuated total is
128 bytes afterwards and was 0 before, and with `is_promotion` set it is the promoted total
that grows by 128 bytes. -/
theorem allocate_from_plab_counts_failure :
    (allocate_from_plab generational_vm exhausted 16 false worker_low).1 = 0
      ∧ worker_low.plab_evacuated = 0
      ∧ (allocate_from_plab generational_vm exhausted 16 false worker_low).2.plab_evacuated
          = 128
      ∧ (allocate_from_plab generational_vm exhausted 16 true worker_low).1 = 0
      ∧ worker_low.plab_promoted = 0
      ∧ (allocate_from_plab generational_vm exhausted 16 true worker_low).2.plab_promoted
          = 128 := by
  refine ⟨by decide, by decide, by decide, by decide, by decide, by decide⟩

/-- C13, as amended: for every object in a young region, on a thread not marked
out-of-memory-during-evacuation and with ages whose sum fits an unsigned 32-bit number, the
first `try_evacuate_object` call that `evacuate_object` makes targets the old generation
exactly when the heap is generational, the collection is a young-generation collection,
promotion of tenured objects is enabled, the object is not forwarded, its header is not
displaced, and the region's age plus the object's age is at least the tenuring threshold. -/
theorem promotion_attempt_iff (F : VM) (E : Allocators) (p : Nat) (s : State)
    (hyoung : (F.heap_region_containing p).affiliation = YOUNG_GENERATION)
    (hoom : s.thread.oom_during_evac = false)
    (hfit : ∀ mark, s.mem p = HeapWord.neutral mark →
      (F.heap_region_containing p).age + mark.age < 2 ^ 32) :
    ((evacuate_object_traced F E p s).2.head? = some OLD_GENERATION
        ↔ F.is_generational = true ∧ F.is_gc_generation_young = true
            ∧ F.ShenandoahPromoteTenuredObjects = true ∧ s.fwd p = p
            ∧ ∃ mark, s.mem p = HeapWord.neutral mark
                ∧ F.InitialTenuringThreshold ≤ (F.heap_region_containing p).age + mark.age)
      ∧ (evacuate_object_traced F E p s).1 = evacuate_object F E p s := by
  refine ⟨?_, evacuate_object_traced_fst F E p s⟩
  unfold evacuate_object_traced
  simp only [hoom, hyoung]
  by_cases h1 : F.is_generational = true <;> by_cases h2 : F.is_gc_generation_young = true <;>
    by_cases h3 : F.ShenandoahPromoteTenuredObjects = true <;> simp [h1, h2, h3]
  by_cases h4 : s.fwd p = p
  · simp only [is_forwarded, h4]
    cases hm : s.mem p with
    | displaced lr => simp
    | neutral mark =>
      have hm2 := hfit mark hm
      have hmod : ((F.heap_region_containing p).age + mark.age) % 4294967296
          = (F.heap_region_containing p).age + mark.age := Nat.mod_eq_of_lt hm2
      by_cases h5 : F.InitialTenuringThreshold ≤ (F.heap_region_containing p).age + mark.age
      · simp only [hmod, h5, if_true]
        by_cases h6 : (try_evacuate_object F E p (F.heap_region_containing p) OLD_GENERATION
            s).1 = 0 <;> simp [h6, h5]
      · simp [hmod, h5]
  · simp [is_forwarded, h4]

/-- C13, at a concrete input: the object at 100 of age 1 in a young region of age 6, with a
tenuring threshold of 7, is first tried in the old generation. -/
theorem promotion_attempt_iff_witness :
    (evacuate_object_traced aged_vm exhausted 100 (heap_unforwarded worker)).2.head?
        = some OLD_GENERATION :=
  (promotion_attempt_iff aged_vm exhausted 100 (heap_unforwarded worker) (by decide)
    (by decide) (fun mark hm => by
      have : mark = { age := 1, hash := 0 } := (HeapWord.neutral.inj hm).symm
      rw [this]
      decide)).1.mpr
    ⟨by decide, by decide, by decide, by decide, ⟨{ age := 1, hash := 0 }, by decide,
      by decide⟩⟩

/-- C13 as stated fails: the object at 100 has age 1, its young region has age 6 and the
tenuring threshold is 7. The sum of the ages does not exceed the threshold, yet
`evacuate_object` makes an old-generation attempt. -/
theorem promotion_attempt_iff_counterexample :
    (aged_vm.heap_region_containing 100).affiliation = YOUNG_GENERATION
      ∧ (heap_unforwarded worker).thread.oom_during_evac = false
      ∧ (heap_unforwarded worker).mem 100 = HeapWord.neutral { age := 1, hash := 0 }
      ∧ (aged_vm.heap_region_containing 100).age = 6
      ∧ aged_vm.InitialTenuringThreshold = 7
      ∧ ¬ (aged_vm.InitialTenuringThreshold < 6 + 1)
      ∧ (evacuate_object_traced aged_vm exhausted 100 (heap_unforwarded worker)).2
          = [OLD_GENERATION] := by
  refine ⟨by decide, by decide, by decide, by decide, by decide, by decide, by decide⟩

/-- C14, as amended: in generational mode during an aging cycle, for every object evacuated
within the young generation whose copy wins the forwarding compare-and-swap, the age
recorded in the copy's header (or in its displaced header) after the call is
`min(max_age, a + r + 1)`, where `a` is the age the object had before the call and `r` is the
age of the source region (the sum fitting an unsigned 32-bit number). -/
theorem evac_copy_age (F : VM) (E : Allocators) (p : Nat) (r : ShenandoahHeapRegion)
    (s : State) (copy : Nat)
    (hcopy : (evac_allocate F E (F.size p)
               (decide (YOUNG_GENERATION = OLD_GENERATION) && r.is_young) YOUNG_GENERATION
               s.thread).copy = copy)
    (hc : copy ≠ 0) (hunforwarded : s.fwd p = p) (hgen : F.is_generational = true)
    (haging : F.is_aging_cycle = true) (hsize : 0 < F.size p)
    (hfit : object_age s p + r.age + 1 < 2 ^ 32) :
    object_age (try_evacuate_object F E p r YOUNG_GENERATION s).2 copy
      = min markWord.max_age (object_age s p + r.age + 1) := by
  subst hcopy
  obtain ⟨s1, hmem, hlock, hout⟩ :=
    try_evacuate_object_aging F E p r s hc hunforwarded hgen haging
  rw [hout]
  generalize (evac_allocate F E (F.size p)
    (decide (YOUNG_GENERATION = OLD_GENERATION) && r.is_young) YOUNG_GENERATION
    s.thread).copy = copy
  have hhead : (try_update_forwardee p copy (aligned_disjoint_words p copy (F.size p) s1)).2.mem
      copy = s.mem p := by
    rw [try_update_forwardee_mem]
    have := copied_word p copy (F.size p) 0 s1 hsize
    simpa [hmem] using this
  have hlr : (try_update_forwardee p copy (aligned_disjoint_words p copy (F.size p) s1)).2.lockrec
      = s.lockrec := by
    rw [try_update_forwardee_lockrec]
    exact hlock
  have hadd : (r.age + 1) % 2 ^ 32 = r.age + 1 := Nat.mod_eq_of_lt (by omega)
  unfold object_age at hfit ⊢
  unfold increase_object_age
  rw [hhead, hadd]
  cases hm : s.mem p with
  | neutral w =>
    rw [hm] at hfit
    simp only [] at hfit
    have hsum : (w.age + (r.age + 1)) % 2 ^ 32 = w.age + r.age + 1 := by
      rw [Nat.mod_eq_of_lt (by omega)]
      omega
    simp only [if_true, markWord.set_age, hsum]
    exact saturated_age _
  | displaced lr =>
    rw [hm] at hfit
    simp only [] at hfit
    have hsum : ((s.lockrec lr).age + (r.age + 1)) % 2 ^ 32 = (s.lockrec lr).age + r.age + 1 := by
      rw [Nat.mod_eq_of_lt (by omega)]
      omega
    simp only [hhead, hm, hlr, if_true, markWord.set_age, hsum]
    exact saturated_age _

/-- C14, at a concrete input: the object at 100 of age 1 in a young region of age 6 is
copied to 200; the copy's header records age 8. -/
theorem evac_copy_age_witness :
    object_age
        (try_evacuate_object generational_vm exhausted 100 aged_region YOUNG_GENERATION
          (heap_unforwarded worker)).2 200 = 8
      ∧ object_age
          (try_evacuate_object generational_vm exhausted 100 aged_region YOUNG_GENERATION
            (heap_unforwarded worker)).2 200
          = min markWord.max_age (object_age (heap_unforwarded worker) 100 + aged_region.age + 1) :=
  ⟨by decide,
    evac_copy_age generational_vm exhausted 100 aged_region (heap_unforwarded worker) 200
      (by decide) (by decide) (by decide) (by decide) (by decide) (by decide) (by decide)⟩

/-- C14 as stated fails: the object at 100 has age 1 before the call and its young region
has age 6; the worker's copy at 200 wins the compare-and-swap in a generational aging cycle,
and its header records age 8, not `min(max_age, 1 + 1) = 2`. -/
theorem evac_copy_age_counterexample :
    generational_vm.is_generational = true ∧ generational_vm.is_aging_cycle = true
      ∧ (try_evacuate_object generational_vm exhausted 100 aged_region YOUNG_GENERATION
          (heap_unforwarded worker)).1 = 200
      ∧ (try_evacuate_object generational_vm exhausted 100 aged_region YOUNG_GENERATION
          (heap_unforwarded worker)).2.fwd 100 = 200
      ∧ object_age (heap_unforwarded worker) 100 = 1
      ∧ object_age
          (try_evacuate_object generational_vm exhausted 100 aged_region YOUNG_GENERATION
            (heap_unforwarded worker)).2 200 = 8
      ∧ object_age
          (try_evacuate_object generational_vm exhausted 100 aged_region YOUNG_GENERATION
            (heap_unforwarded worker)).2 200
          ≠ min markWord.max_age (object_age (heap_unforwarded worker) 100 + 1) := by
  refine ⟨by decide, by decide, by decide, by decide, by decide, by decide, by decide⟩

/-- C16: for every region, marking bitmap, top-at-mark-start `tams` with
`bottom <= tams <= end`, and limit, when every object size is positive and the loops are
given more than `limit` iterations, `marked_object_iterate` returns, and it passes the same
sequence of objects to the closure for every prefetch distance up to 256, the batched scan
of the distances 1 to 256 and the plain scan of the distances below 1 alike: the marked
addresses in `[bottom, min(limit, tams))`, in strictly increasing order and each once,
followed by the objects found by walking from `tams` in steps of each object's size while the
address is below `limit`. -/
theorem marked_object_iterate_sequence (F : VM) (marked : Nat → Bool) (region : RegionBounds)
    (tams limit : Nat) (dist : Int) (fuel : Nat)
    (hbottom : region.bottom ≤ tams) (hend : tams ≤ region.end_)
    (hsize : ∀ a, 0 < F.size a) (hdist : dist ≤ 256) (hfuel : limit < fuel) :
    marked_object_iterate F marked region tams limit dist fuel
        = some (marked_addresses marked region.bottom (min limit tams)
                  ++ objects_from F limit (limit - tams) tams)
      ∧ marked_object_iterate F marked region tams limit dist fuel
          = marked_object_iterate F marked region tams limit 0 fuel
      ∧ (marked_addresses marked region.bottom (min limit tams)).Pairwise (fun a b => a < b)
      ∧ (∀ a, a ∈ marked_addresses marked region.bottom (min limit tams)
          ↔ region.bottom ≤ a ∧ a < min limit tams ∧ marked a = true) := by
  have hmin : min tams region.end_ = tams := Nat.min_eq_left hend
  have hs := get_next_marked_addr_spec marked region.bottom tams hbottom
  have hlb : min limit tams ≤ tams := Nat.min_le_right _ _
  have hlb2 : min limit tams ≤ limit := Nat.min_le_left _ _
  have hcand : get_next_marked_addr marked region.bottom tams < min limit tams →
      marked (get_next_marked_addr marked region.bottom tams) = true :=
    fun h => hs.2.2.2 (by omega)
  have hskip : marked_addresses marked region.bottom (min limit tams)
      = marked_addresses marked (get_next_marked_addr marked region.bottom tams)
          (min limit tams) :=
    marked_addresses_skip marked (min limit tams)
      (get_next_marked_addr marked region.bottom tams - region.bottom) region.bottom
      (get_next_marked_addr marked region.bottom tams) (by omega) hs.2.2.1
  have hplain := scan_plain_spec marked (min limit tams) fuel
    (get_next_marked_addr marked region.bottom tams) hcand (by omega)
  have hwalk := size_walk_spec F limit hsize fuel (limit - tams) tams (by omega)
    (Nat.le_refl _)
  have hall : ∀ d : Int, d ≤ 256 →
      marked_object_iterate F marked region tams limit d fuel
        = some (marked_addresses marked region.bottom (min limit tams)
                  ++ objects_from F limit (limit - tams) tams) := by
    intro d hd
    unfold marked_object_iterate
    simp only [hmin]
    by_cases hpos : 0 < d
    · have hbatch := scan_batched_spec marked (min limit tams) d.toNat (by omega) fuel
        (get_next_marked_addr marked region.bottom tams) hcand (by omega)
      rw [if_pos hpos, if_pos hd, hbatch, hwalk, hskip]
      rfl
    · rw [if_neg hpos, hplain, hwalk, hskip]
      rfl
  refine ⟨hall dist hdist, ?_, marked_addresses_increasing marked _ _,
    marked_addresses_mem marked _ _⟩
  rw [hall dist hdist, hall 0 (by decide)]

/-- C16, at a concrete input: the region from 2 to 20 has top-at-mark-start 8, the bitmap
marks 3, 5 and 6, every object has two words and the limit is 14. With a prefetch distance
of 2 and with the plain scan the closure receives 3, 5, 6 and then 8, 10, 12. -/
theorem marked_object_iterate_sequence_witness :
    marked_object_iterate two_word_vm bitmap_356 { bottom := 2, end_ := 20 } 8 14 2 15
        = some [3, 5, 6, 8, 10, 12]
      ∧ marked_object_iterate two_word_vm bitmap_356 { bottom := 2, end_ := 20 } 8 14 0 15
        = some [3, 5, 6, 8, 10, 12]
      ∧ marked_object_iterate two_word_vm bitmap_356 { bottom := 2, end_ := 20 } 8 14 2 15
        = marked_object_iterate two_word_vm bitmap_356 { bottom := 2, end_ := 20 } 8 14 0 15 :=
  ⟨by decide, by decide,
    (marked_object_iterate_sequence two_word_vm bitmap_356 { bottom := 2, end_ := 20 } 8 14 2
      15 (by decide) (by decide) (fun _ => Nat.succ_pos 1) (by decide) (by decide)).2.1⟩

end Shenandoah
